import Mathlib

/-!
Verification development for the lestrrat-go/gettext repository: a shallow
embedding of the `.po` parser, the translation catalog (`Po`), the
plural-form evaluation glue, and the `Locale` lookup layer, together with
theorems settling the behavioural claims about them.

Go strings are modelled as `List Char` (runes).  Go maps are modelled as
functions to `Option`; a nil map is modelled by an outer `Option`.  Go
panics are modelled by `Option`/dedicated result constructors.  Error
values are modelled by their message strings (errors.Wrap concatenates
with ": ").
-/

set_option maxRecDepth 20000

abbrev Str := List Char

def s2l (s : String) : Str := s.data

/-- Go unicode.IsSpace (the white-space set used by strings.TrimSpace). -/
def goIsSpace (c : Char) : Bool :=
  let n := c.toNat
  n == 9 || n == 10 || n == 11 || n == 12 || n == 13 || n == 32 ||
  n == 0x85 || n == 0xA0 || n == 0x1680 ||
  (0x2000 ≤ n && n ≤ 0x200A) || n == 0x2028 || n == 0x2029 ||
  n == 0x202F || n == 0x205F || n == 0x3000

/-- strings.TrimSpace, left part. -/
def trimLeftSp (l : Str) : Str := l.dropWhile goIsSpace

/-- strings.TrimSpace, right part. -/
def trimRightSp (l : Str) : Str := (l.reverse.dropWhile goIsSpace).reverse

/-- strings.TrimSpace. -/
def trimSpace (l : Str) : Str := trimRightSp (trimLeftSp l)

/-- strings.HasPrefix s pre. -/
def goHasPfx : Str → Str → Bool
  | _, [] => true
  | [], _ :: _ => false
  | c :: cs, p :: ps => c == p && goHasPfx cs ps

/-- strings.HasSuffix s suf. -/
def goHasSfx (s suf : Str) : Bool := goHasPfx s.reverse suf.reverse

/-- Index of the first occurrence of byte c in s (as an offset), if any. -/
def firstIdx (s : Str) (c : Char) : Option Nat :=
  match s with
  | [] => none
  | d :: rest => if d == c then some 0 else (firstIdx rest c).map (· + 1)

/-- bytes.IndexByte / strings.Index for a one-byte needle: -1 when absent. -/
def indexByte (s : Str) (c : Char) : Int :=
  match firstIdx s c with
  | none => -1
  | some k => (k : Int)

/-- strings.Contains for a single character. -/
def elemCh (s : Str) (c : Char) : Bool := s.any (· == c)

/-- strings.Split with a one-character separator. -/
def splitOnCh : Str → Char → List Str
  | [], _ => [[]]
  | d :: rest, c =>
    if d == c then [] :: splitOnCh rest c
    else
      match splitOnCh rest c with
      | [] => [[d]]
      | h :: t => (d :: h) :: t

/-- strings.SplitN with limit 2 and a one-character separator. -/
def splitN2 (s : Str) (c : Char) : List Str :=
  match firstIdx s c with
  | none => [s]
  | some k => [s.take k, s.drop (k + 1)]

def digVal (c : Char) : Option Nat :=
  if '0' ≤ c && c ≤ '9' then some (c.toNat - '0'.toNat) else none

/-- Decimal digit run to a Nat; none when empty or a non-digit appears. -/
def decDigits : Str → Option Nat
  | [] => none
  | [c] => digVal c
  | c :: rest => do
    let d ← digVal c
    let r ← decDigits rest
    let w := rest.length
    some (d * 10 ^ w + r)

def maxInt64 : Int := 9223372036854775807
def minInt64 : Int := -9223372036854775808

/-- Result of strconv.Atoi: the value it returns together with the error
kind (Go returns 0 on a syntax error and the clamped bound on a range
error). -/
inductive AtoiRes
  | ok (v : Int)
  | synErr
  | rangeErr (v : Int)
deriving DecidableEq

/-- strconv.Atoi (base-10 ParseInt on a 64-bit int). -/
def goAtoi (s : Str) : AtoiRes :=
  let core : Str → Bool × Str := fun t =>
    match t with
    | '+' :: rest => (true, rest)
    | '-' :: rest => (false, rest)
    | _ => (true, t)
  let (pos, digs) := core s
  match decDigits digs with
  | none => .synErr
  | some n =>
    let v : Int := if pos then (n : Int) else -(n : Int)
    if v > maxInt64 then .rangeErr maxInt64
    else if v < minInt64 then .rangeErr minInt64
    else .ok v

/-- The value strconv.Atoi returns when its error is discarded. -/
def atoiValue (s : Str) : Int :=
  match goAtoi s with
  | .ok v => v
  | .synErr => 0
  | .rangeErr v => v

def natDec (n : Nat) : Str := Nat.toDigits 10 n

def intDec (v : Int) : Str :=
  if v < 0 then '-' :: natDec v.natAbs else natDec v.toNat

def hexDigitLower (n : Nat) : Char :=
  if n < 10 then Char.ofNat ('0'.toNat + n) else Char.ofNat ('a'.toNat + (n - 10))

/-- strconv.Quote of one character (ASCII-accurate; printable non-ASCII
characters are kept literally, as Go does for printable runes). -/
def quoteChar (c : Char) : Str :=
  if c == '"' then ['\\', '"']
  else if c == '\\' then ['\\', '\\']
  else if 0x20 ≤ c.toNat && c.toNat < 0x7f then [c]
  else if c == '\n' then ['\\', 'n']
  else if c == '\t' then ['\\', 't']
  else if c == '\r' then ['\\', 'r']
  else if c.toNat == 7 then ['\\', 'a']
  else if c.toNat == 8 then ['\\', 'b']
  else if c.toNat == 11 then ['\\', 'v']
  else if c.toNat == 12 then ['\\', 'f']
  else if c.toNat < 0x20 || c.toNat == 0x7f then
    ['\\', 'x', hexDigitLower (c.toNat / 16), hexDigitLower (c.toNat % 16)]
  else [c]

/-- strconv.Quote. -/
def quoteGo (s : Str) : Str := '"' :: (s.map quoteChar).flatten ++ ['"']

def unhex (c : Char) : Option Nat :=
  let n := c.toNat
  if 48 ≤ n && n ≤ 57 then some (n - 48)
  else if 97 ≤ n && n ≤ 102 then some (n - 87)
  else if 65 ≤ n && n ≤ 70 then some (n - 55)
  else none

def octVal (c : Char) : Option Nat :=
  if '0' ≤ c && c ≤ '7' then some (c.toNat - '0'.toNat) else none

def isValidRune (n : Nat) : Bool :=
  n ≤ 0x10FFFF && !(0xD800 ≤ n && n ≤ 0xDFFF)

/-- strconv.UnquoteChar, escape part: decodes the characters after a
backslash, returning the decoded character and the remaining input. -/
def decodeEsc (q : Char) : Str → Option (Char × Str)
  | [] => none
  | e :: rest =>
    match e with
    | 'a' => some (Char.ofNat 7, rest)
    | 'b' => some (Char.ofNat 8, rest)
    | 'f' => some (Char.ofNat 12, rest)
    | 'n' => some ('\n', rest)
    | 'r' => some ('\r', rest)
    | 't' => some ('\t', rest)
    | 'v' => some (Char.ofNat 11, rest)
    | '\\' => some ('\\', rest)
    | '\'' => if q == '\'' then some ('\'', rest) else none
    | '"' => if q == '"' then some ('"', rest) else none
    | 'x' =>
      match rest with
      | h1 :: h2 :: rest2 => do
        let a ← unhex h1
        let b ← unhex h2
        some (Char.ofNat (a * 16 + b), rest2)
      | _ => none
    | 'u' =>
      match rest with
      | h1 :: h2 :: h3 :: h4 :: rest2 => do
        let a ← unhex h1
        let b ← unhex h2
        let c ← unhex h3
        let d ← unhex h4
        let n := a * 4096 + b * 256 + c * 16 + d
        if isValidRune n then some (Char.ofNat n, rest2) else none
      | _ => none
    | 'U' =>
      match rest with
      | h1 :: h2 :: h3 :: h4 :: h5 :: h6 :: h7 :: h8 :: rest2 => do
        let a ← unhex h1
        let b ← unhex h2
        let c ← unhex h3
        let d ← unhex h4
        let e1 ← unhex h5
        let f ← unhex h6
        let g ← unhex h7
        let h ← unhex h8
        let n := ((((((a * 16 + b) * 16 + c) * 16 + d) * 16 + e1) * 16 + f) * 16 + g) * 16 + h
        if isValidRune n then some (Char.ofNat n, rest2) else none
      | _ => none
    | _ =>
      match octVal e, rest with
      | some o1, c2 :: c3 :: rest2 => do
        let o2 ← octVal c2
        let o3 ← octVal c3
        some (Char.ofNat (o1 * 64 + o2 * 8 + o3), rest2)
      | _, _ => none

/-- The strconv.Unquote scanning loop over the quoted content (both end
quotes already stripped); fuel is at least the input length. -/
def unqLoop (q : Char) : Nat → Str → Option Str
  | _, [] => some []
  | 0, _ :: _ => none
  | fuel + 1, c :: rest =>
    if c == q then none
    else if c == '\\' then do
      let (ch, rest2) ← decodeEsc q rest
      let tl ← unqLoop q fuel rest2
      some (ch :: tl)
    else (unqLoop q fuel rest).map (c :: ·)

/-- strconv.Unquote (Go 1.8-era semantics; its error is ErrSyntax,
message "invalid syntax"). -/
def unquote : Str → Option Str
  | [] => none
  | q :: rest =>
    if rest = [] then none
    else
    let inner := rest.dropLast
    if q == rest.getLastD ' ' then
      if q == '`' then
        if elemCh inner '`' then none else some inner
      else if q == '"' then
        if elemCh inner '\n' then none else unqLoop '"' inner.length inner
      else if q == '\'' then
        if elemCh inner '\n' then none
        else
          match unqLoop '\'' inner.length inner with
          | some [c] => some [c]
          | _ => none
      else none
    else none

/-- Values handed to the positional formatter.  Variadic arguments are
scalars (numbers or strings); `slice` is the argument slice itself when it
is passed as a single value instead of being spread. -/
inductive GoVal
  | i (v : Int)
  | s (str : Str)
  | slice (vs : List GoVal)

/-- Modelled from the spec: rendering of one scalar formatter operand
(%d or %s verb) with Go fmt mismatch markers. -/
def renderScalar (verb : Char) : GoVal → Str
  | .i v =>
    if verb == 'd' then intDec v
    else if verb == 's' then s2l "%!s(int=" ++ intDec v ++ [')']
    else s2l "%!" ++ [verb] ++ s2l "(int=" ++ intDec v ++ [')']
  | .s str =>
    if verb == 's' then str
    else s2l "%!" ++ [verb] ++ s2l "(string=" ++ str ++ [')']
  | .slice _ => s2l "<slice>"

def joinSep (sep : Str) : List Str → Str
  | [] => []
  | [x] => x
  | x :: rest => x ++ sep ++ joinSep sep rest

/-- Modelled from the spec: rendering of one formatter operand; a slice
operand is rendered element-wise in brackets, as Go fmt does (one nesting
level suffices for every call site in this code base). -/
def renderVal (verb : Char) : GoVal → Str
  | .slice vs => '[' :: joinSep [' '] (vs.map (renderScalar verb)) ++ [']']
  | v => renderScalar verb v

/-- Go type=value notation used by fmt for EXTRA/bad-verb markers. -/
def typeVal : GoVal → Str
  | .i v => s2l "int=" ++ intDec v
  | .s str => s2l "string=" ++ str
  | .slice vs => s2l "[]interface \x7b\x7d=" ++ '[' :: joinSep [' '] (vs.map (renderScalar 'v')) ++ [']']

def extraArgs : List GoVal → Str
  | [] => []
  | l => s2l "%!(EXTRA " ++ joinSep (s2l ", ") (l.map typeVal) ++ [')']

/-- Modelled from the spec: the positional-argument formatter
(fmt.Sprintf) restricted to the %d, %s and %% directives that occur in
this code base, with Go-style markers for missing, extra or mismatched
operands. -/
def fmtLoop : Str → List GoVal → Str
  | [], args => extraArgs args
  | ['%'], args => s2l "%!(NOVERB)" ++ extraArgs args
  | '%' :: c :: rest, args =>
    if c == '%' then '%' :: fmtLoop rest args
    else
      match args with
      | [] => s2l "%!" ++ [c] ++ s2l "(MISSING)" ++ fmtLoop rest []
      | a :: args2 => renderVal c a ++ fmtLoop rest args2
  | c :: rest, args => c :: fmtLoop rest args

/-- format(str, vars...) — the helper every lookup result passes through
(fmt.Sprintf under the hood). -/
def format (f : Str) (args : List GoVal) : Str := fmtLoop f args


/-!
Plural-form expression language.  The repository evaluates the
`Plural-Forms` formula with an embedded scripting engine (an external
dependency, not part of this source tree); the spec (sections 4.1 and 9)
specifies it as a minimal C-style expression language over the variable
`n`.  The following tokenizer, recursive-descent parser and evaluator are
modelled from the spec: integer literals, `n`, arithmetic + - * / % with C
truncated division, comparisons, && || ! with C truthiness, the ternary
conditional and parentheses, with C precedence and associativity.
-/

inductive Tok
  | num (v : Int)
  | var
  | plus | minus | star | slash | percent
  | eqeq | neq | lt | le | gt | ge
  | andand | oror | bang
  | question | colon | lparen | rparen
deriving DecidableEq

/-- Tokenizer for the plural-form expression language (modelled from the
spec); fuel is at least the input length. -/
def tokA : Nat → Str → Option (List Tok)
  | _, [] => some []
  | 0, _ :: _ => none
  | fuel + 1, c :: rest =>
    if goIsSpace c then tokA fuel rest
    else if c == '(' then (tokA fuel rest).map (Tok.lparen :: ·)
    else if c == ')' then (tokA fuel rest).map (Tok.rparen :: ·)
    else if c == '?' then (tokA fuel rest).map (Tok.question :: ·)
    else if c == ':' then (tokA fuel rest).map (Tok.colon :: ·)
    else if c == '+' then (tokA fuel rest).map (Tok.plus :: ·)
    else if c == '-' then (tokA fuel rest).map (Tok.minus :: ·)
    else if c == '*' then (tokA fuel rest).map (Tok.star :: ·)
    else if c == '/' then (tokA fuel rest).map (Tok.slash :: ·)
    else if c == '%' then (tokA fuel rest).map (Tok.percent :: ·)
    else if c == 'n' then (tokA fuel rest).map (Tok.var :: ·)
    else if c == '=' then
      match rest with
      | '=' :: rest2 => (tokA fuel rest2).map (Tok.eqeq :: ·)
      | _ => none
    else if c == '!' then
      match rest with
      | '=' :: rest2 => (tokA fuel rest2).map (Tok.neq :: ·)
      | _ => (tokA fuel rest).map (Tok.bang :: ·)
    else if c == '&' then
      match rest with
      | '&' :: rest2 => (tokA fuel rest2).map (Tok.andand :: ·)
      | _ => none
    else if c == '|' then
      match rest with
      | '|' :: rest2 => (tokA fuel rest2).map (Tok.oror :: ·)
      | _ => none
    else if c == '<' then
      match rest with
      | '=' :: rest2 => (tokA fuel rest2).map (Tok.le :: ·)
      | _ => (tokA fuel rest).map (Tok.lt :: ·)
    else if c == '>' then
      match rest with
      | '=' :: rest2 => (tokA fuel rest2).map (Tok.ge :: ·)
      | _ => (tokA fuel rest).map (Tok.gt :: ·)
    else
      match digVal c with
      | some d =>
        let digs := rest.takeWhile (fun x => ('0' ≤ x && x ≤ '9' : Bool))
        let restNum := rest.drop digs.length
        let v := digs.foldl (fun acc x => acc * 10 + (x.toNat - '0'.toNat)) d
        (tokA fuel restNum).map (Tok.num (v : Int) :: ·)
      | none => none

def tokenize (s : Str) : Option (List Tok) := tokA s.length s

inductive BinOp
  | add | sub | mul | div | mod
  | ceq | cne | clt | cle | cgt | cge
  | land | lor
deriving DecidableEq

inductive Expr
  | num (v : Int)
  | var
  | not (e : Expr)
  | neg (e : Expr)
  | bin (op : BinOp) (a b : Expr)
  | cond (c t f : Expr)
deriving DecidableEq

/-- Operator tokens at a given precedence level (2 = multiplicative up
to 7 = logical or). -/
def levelOp (lvl : Nat) (t : Tok) : Option BinOp :=
  if lvl == 2 then
    match t with
    | Tok.star => some .mul
    | Tok.slash => some .div
    | Tok.percent => some .mod
    | _ => none
  else if lvl == 3 then
    match t with
    | Tok.plus => some .add
    | Tok.minus => some .sub
    | _ => none
  else if lvl == 4 then
    match t with
    | Tok.lt => some .clt
    | Tok.le => some .cle
    | Tok.gt => some .cgt
    | Tok.ge => some .cge
    | _ => none
  else if lvl == 5 then
    match t with
    | Tok.eqeq => some .ceq
    | Tok.neq => some .cne
    | _ => none
  else if lvl == 6 then
    match t with
    | Tok.andand => some .land
    | _ => none
  else if lvl == 7 then
    match t with
    | Tok.oror => some .lor
    | _ => none
  else none

/-- Parser mode: descend into a precedence level (0 primary, 1 unary,
2-7 left-associative binary chains, 8 ternary), or continue a binary
chain at a level with an already-parsed left operand. -/
inductive PMode
  | atLevel (lvl : Nat)
  | chain (lvl : Nat) (a : Expr)

/-- Recursive-descent parser for the plural-form expression language
(modelled from the spec), C precedence and associativity; the fuel
argument bounds the recursion depth and is structurally decreasing so
that the parser computes by kernel reduction. -/
def parseP : Nat → PMode → List Tok → Option (Expr × List Tok)
  | 0, _, _ => none
  | fuel + 1, .atLevel lvl, ts =>
    if lvl == 0 then
      match ts with
      | Tok.num v :: ts1 => some (Expr.num v, ts1)
      | Tok.var :: ts1 => some (Expr.var, ts1)
      | Tok.lparen :: ts1 =>
        match parseP fuel (.atLevel 8) ts1 with
        | some (e, Tok.rparen :: ts2) => some (e, ts2)
        | _ => none
      | _ => none
    else if lvl == 1 then
      match ts with
      | Tok.bang :: ts1 =>
        match parseP fuel (.atLevel 1) ts1 with
        | some (e, ts2) => some (Expr.not e, ts2)
        | none => none
      | Tok.minus :: ts1 =>
        match parseP fuel (.atLevel 1) ts1 with
        | some (e, ts2) => some (Expr.neg e, ts2)
        | none => none
      | _ => parseP fuel (.atLevel 0) ts
    else if lvl == 8 then
      match parseP fuel (.atLevel 7) ts with
      | some (c, Tok.question :: ts2) =>
        match parseP fuel (.atLevel 8) ts2 with
        | some (t, Tok.colon :: ts4) =>
          match parseP fuel (.atLevel 8) ts4 with
          | some (f, ts5) => some (Expr.cond c t f, ts5)
          | none => none
        | _ => none
      | some (c, ts1) => some (c, ts1)
      | none => none
    else
      match parseP fuel (.atLevel (lvl - 1)) ts with
      | some (a, ts1) => parseP fuel (.chain lvl a) ts1
      | none => none
  | fuel + 1, .chain lvl a, ts =>
    match ts with
    | t :: ts1 =>
      match levelOp lvl t with
      | some op =>
        match parseP fuel (.atLevel (lvl - 1)) ts1 with
        | some (b, ts2) => parseP fuel (.chain lvl (Expr.bin op a b)) ts2
        | none => none
      | none => some (a, ts)
    | [] => some (a, ts)

/-- Parse a whole plural-form expression from its source text; the entire
input must be consumed. -/
def parseExpr (s : Str) : Option Expr := do
  let ts ← tokenize s
  match parseP (10 * ts.length + 20) (.atLevel 8) ts with
  | some (e, []) => some e
  | _ => none

/-- Run-time value of a plural-form expression: integer or boolean. -/
inductive EVal
  | i (v : Int)
  | b (bv : Bool)
deriving DecidableEq

def EVal.truthy : EVal → Bool
  | .i v => v != 0
  | .b bv => bv

def EVal.asInt : EVal → Int
  | .i v => v
  | .b bv => if bv then 1 else 0

/-- Evaluator for plural-form expressions (modelled from the spec): C
truthiness coercions, truncated division, division or modulus by zero is
an evaluation error. -/
def evalExpr (nv : Int) : Expr → Option EVal
  | .num v => some (.i v)
  | .var => some (.i nv)
  | .not e => do
    let v ← evalExpr nv e
    some (.b (! v.truthy))
  | .neg e => do
    let v ← evalExpr nv e
    some (.i (- v.asInt))
  | .bin op a b => do
    let va ← evalExpr nv a
    let vb ← evalExpr nv b
    match op with
    | .add => some (.i (va.asInt + vb.asInt))
    | .sub => some (.i (va.asInt - vb.asInt))
    | .mul => some (.i (va.asInt * vb.asInt))
    | .div => if vb.asInt == 0 then none else some (.i (Int.tdiv va.asInt vb.asInt))
    | .mod => if vb.asInt == 0 then none else some (.i (Int.tmod va.asInt vb.asInt))
    | .ceq => some (.b (va.asInt == vb.asInt))
    | .cne => some (.b (va.asInt != vb.asInt))
    | .clt => some (.b (va.asInt < vb.asInt))
    | .cle => some (.b (va.asInt ≤ vb.asInt))
    | .cgt => some (.b (vb.asInt < va.asInt))
    | .cge => some (.b (vb.asInt ≤ va.asInt))
    | .land => some (.b (va.truthy && vb.truthy))
    | .lor => some (.b (va.truthy || vb.truthy))
  | .cond c t f => do
    let vc ← evalExpr nv c
    if vc.truthy then evalExpr nv t else evalExpr nv f

/-- env.Execute of the stored plural text: parse the source text, then
evaluate it with `n` bound — this happens on every call. -/
def pluralEval (src : Str) (nv : Int) : Option EVal :=
  (parseExpr src).bind (evalExpr nv)


/-!
Translation catalog, embedded from po.go.  Go maps are functions into
`Option`; the outer `Option` distinguishes a nil map.  A negative index
into a Go slice panics; panicking computations are `Option`-valued or use
a dedicated result constructor.
-/

/-- textlist: one translation object may contain multiple translations. -/
abbrev Textlist := List Str

/-- Result of textlist.Get: Go returns ("", false) on an index beyond the
length, the stored string otherwise — and panics on a negative index
(the length check `len(l) <= idx` does not catch it). -/
inductive GetRes
  | panicked
  | miss
  | found (s : Str)
deriving DecidableEq

/-- textlist.Len. -/
def Textlist.Len (l : Textlist) : Int := (l.length : Int)

/-- textlist.Set: grows the list with empty strings up to index idx when
needed, then writes.  A negative index skips the grow branch (len <= idx
is false) and the write panics; an index at the int64 maximum makes the
grow branch compute a negative make length, which also panics. -/
def Textlist.Set (l : Textlist) (idx : Int) (s : Str) : Option Textlist :=
  if Textlist.Len l ≤ idx then
    if idx + 1 > maxInt64 then none
    else
      let newl := l ++ List.replicate ((idx + 1).toNat - l.length) []
      some (newl.set idx.toNat s)
  else if idx < 0 then none
  else some (l.set idx.toNat s)

/-- textlist.Get. -/
def Textlist.Get (l : Textlist) (idx : Int) : GetRes :=
  if Textlist.Len l ≤ idx then .miss
  else if idx < 0 then .panicked
  else .found (l.getD idx.toNat [])

/-- translation: one source phrase with its localized forms. -/
structure translation where
  id : Str
  PluralID : Str
  Trs : Textlist
deriving DecidableEq

/-- newTranslation. -/
def newTranslation : translation := ⟨[], [], []⟩

/-- translation.get: the form at index 0 when it exists, the untranslated
id otherwise.  (Index 0 is never negative, so the panicked branch of
textlist.Get is unreachable here.) -/
def translation.get (t : translation) : Str :=
  match Textlist.Get t.Trs 0 with
  | .found v => v
  | _ => t.id

/-- translation.getN: the form at the given index when it exists, the
untranslated plural id otherwise; none models the panic a negative index
causes. -/
def translation.getN (t : translation) (n : Int) : Option Str :=
  match Textlist.Get t.Trs n with
  | .found v => some v
  | .miss => some t.PluralID
  | .panicked => none

/-- Map from source string to translation (Go map[string]*translation);
the outer Option is nil-ness of the map itself. -/
abbrev TransMap := Str → Option translation

/-- Insert-or-replace into a translation map. -/
def mupd (m : TransMap) (k : Str) (v : translation) : TransMap :=
  fun q => if q = k then some v else m q

/-- Map from context name to a (nullable) per-context translation map. -/
abbrev CtxMap := Str → Option (Option TransMap)

/-- Insert-or-replace into a context map. -/
def cupd (m : CtxMap) (k : Str) (v : Option TransMap) : CtxMap :=
  fun q => if q = k then some v else m q

/-- Po: the parsed catalog (fields of po.go / interface.go; `plural` is
the raw text of the `plural=` assignment of the Plural-Forms header). -/
structure Po where
  Language : Str
  PluralForms : Str
  nplurals : Int
  plural : Str
  Translations : Option TransMap
  Contexts : Option CtxMap

/-- NewPo: empty non-nil maps. -/
def NewPo : Po :=
  { Language := []
    PluralForms := []
    nplurals := 0
    plural := []
    Translations := some (fun _ => none)
    Contexts := some (fun _ => none) }

/-- Po.pluralForm: the plural form index corresponding to n.  Returns 0
when nplurals is unset, when the stored expression text is empty, and on
any parse or evaluation error; a boolean result maps to 1/0; an integer
result v is clamped to 0 only when v > nplurals.  The stored `plural`
text is parsed again on every call. -/
def Po.pluralForm (po : Po) (n : Int) : Int :=
  if po.nplurals < 1 then 0
  else if po.plural = [] then 0
  else
    match pluralEval po.plural n with
    | none => 0
    | some v =>
      match v with
      | .b bv => if bv then 1 else 0
      | .i iv => if iv > po.nplurals then 0 else iv

/-- Po.Get: the translation for the given string, formatted with the
variadic arguments. -/
def Po.Get (po : Po) (str : Str) (vars : List GoVal) : Str :=
  match po.Translations with
  | some m =>
    match m str with
    | some t => format t.get vars
    | none => format str vars
  | none => format str vars

/-- Po.GetN: the plural form of the translation for the given string
selected by pluralForm, formatted; none models the panic a negative
plural index causes inside getN. -/
def Po.GetN (po : Po) (str plural : Str) (n : Int) (vars : List GoVal) : Option Str :=
  match po.Translations with
  | some m =>
    match m str with
    | some pot => (pot.getN (po.pluralForm n)).map (fun t => format t vars)
    | none => some (format plural vars)
  | none => some (format plural vars)

/-- Po.GetC: the translation for the given string in the given context,
formatted. -/
def Po.GetC (po : Po) (str ctx : Str) (vars : List GoVal) : Str :=
  match po.Contexts with
  | some cm =>
    match cm ctx with
    | some (some im) =>
      match im str with
      | some t => format t.get vars
      | none => format str vars
    | some none => format str vars
    | none => format str vars
  | none => format str vars

/-- Po.GetNC: the plural form of the translation for the given string in
the given context, formatted. -/
def Po.GetNC (po : Po) (str plural : Str) (n : Int) (ctx : Str) (vars : List GoVal) : Option Str :=
  match po.Contexts with
  | some cm =>
    match cm ctx with
    | some (some im) =>
      match im str with
      | some pot => (pot.getN (po.pluralForm n)).map (fun t => format t vars)
      | none => some (format plural vars)
    | some none => some (format plural vars)
    | none => some (format plural vars)
  | none => some (format plural vars)

/-!
MIME header reading, modelled from the spec (net/textproto is an external
collaborator: the header block is parsed as RFC-2822-style `Key: value`
lines, case-insensitive keys, values trimmed of leading blanks, a line
with no colon is an error, continuation lines are joined with a blank,
reading stops at the first empty line).
-/

def validHeaderFieldChar (c : Char) : Bool :=
  let n := c.toNat
  (('a' ≤ c && c ≤ 'z') || ('A' ≤ c && c ≤ 'Z') || ('0' ≤ c && c ≤ '9')) ||
  n == 0x21 || n == 0x23 || n == 0x24 || n == 0x25 || n == 0x26 || n == 0x27 ||
  n == 0x2A || n == 0x2B || n == 0x2D || n == 0x2E || n == 0x5E || n == 0x5F ||
  n == 0x60 || n == 0x7C || n == 0x7E

def asciiUpper (c : Char) : Char :=
  if 'a' ≤ c && c ≤ 'z' then Char.ofNat (c.toNat - 32) else c

def asciiLower (c : Char) : Char :=
  if 'A' ≤ c && c ≤ 'Z' then Char.ofNat (c.toNat + 32) else c

def canonAux : Bool → Str → Str
  | _, [] => []
  | up, c :: rest =>
    (if up then asciiUpper c else asciiLower c) :: canonAux (c == '-') rest

/-- textproto.CanonicalMIMEHeaderKey: canonical case when every character
is a valid header-field character, the key unchanged otherwise. -/
def canonKey (s : Str) : Str :=
  if s.all validHeaderFieldChar then canonAux true s else s

abbrev MimeHdr := List (Str × Str)

def mimeGet (m : MimeHdr) (k : Str) : Str :=
  match m.find? (fun p => p.1 == canonKey k) with
  | some p => p.2
  | none => []

def stripCR (l : Str) : Str := if goHasSfx l ['\r'] then l.dropLast else l

def startsWithSpTab (l : Str) : Bool :=
  match l with
  | c :: _ => c == ' ' || c == '\t'
  | [] => false

def trimSpTab (l : Str) : Str :=
  ((l.dropWhile (fun c => c == ' ' || c == '\t')).reverse.dropWhile
    (fun c => c == ' ' || c == '\t')).reverse

/-- Continuation joining: lines that begin with a blank or tab are folded
into the preceding header line with a single blank. -/
def joinCont : Nat → List Str → List Str
  | 0, ls => ls
  | _ + 1, [] => []
  | fuel + 1, l :: rest =>
    let conts := rest.takeWhile startsWithSpTab
    let rest2 := rest.drop conts.length
    if conts.isEmpty then l :: joinCont fuel rest2
    else (conts.foldl (fun acc r => acc ++ [' '] ++ trimSpTab r) (trimSpTab l)) :: joinCont fuel rest2

def mimeLoop : Nat → List Str → MimeHdr → Except String MimeHdr
  | _, [], _ => Except.error "EOF"
  | 0, _ :: _, _ => Except.error "EOF"
  | fuel + 1, kv :: rest, m =>
    if kv = [] then Except.ok m
    else
      match firstIdx kv ':' with
      | none => Except.error ("malformed MIME header line: " ++ String.mk kv)
      | some i =>
        let key := canonKey (kv.take i)
        let v := (kv.drop (i + 1)).dropWhile (fun c => c == ' ' || c == '\t')
        mimeLoop fuel rest (m ++ [(key, v)])

/-- ReadMIMEHeader over an in-memory buffer. -/
def readMIME (text : Str) : Except String MimeHdr :=
  let lines := (splitOnCh text '\n').map stripCR
  let lines2 := joinCont lines.length lines
  mimeLoop (lines2.length + 1) lines2 []

/-!
The .po parser, embedded from the unnamed parser source file (the variant
consistent with po.go and interface.go: the `plural=` assignment is
stored verbatim, not compiled).
-/

/-- parseCtx: the parser state threaded through the scan. -/
structure ParseCtx where
  buf : Str
  pos : Nat
  po : Po
  rawHeaders : Str
  strict : Bool
  curTranslation : translation
  curContext : Str

/-- parseCtx.Line: extracts the next line and the new read position.
Mirrors the Go code faithfully, including its comparison of the relative
newline offset `i` against the absolute position `oldpos`. -/
def lineAt (buf : Str) (pos : Nat) : Str × Nat :=
  let oldpos := pos
  let i : Int := indexByte (buf.drop oldpos) '\n'
  if i = (oldpos : Int) then ([], pos + 1)
  else if i = -1 then (buf.drop oldpos, buf.length)
  else ((buf.drop oldpos).take i.toNat, pos + i.toNat + 1)

/-- Result of one per-line handler: panic, a per-line error (with the
mutated state), or the new state. -/
inductive StepRes
  | panicked
  | failed (e : String) (st : ParseCtx)
  | ok (st : ParseCtx)

/-- parseCtx.pop: commits the pending translation.  An empty pending id
returns immediately — before the pending context is cleared.  none models
the panic of writing to a nil map (unreachable from Parse, which starts
from NewPo). -/
def pop (p : ParseCtx) : Option ParseCtx :=
  let curT := p.curTranslation
  let curC := p.curContext
  let p1 := { p with curTranslation := newTranslation }
  if curT.id = [] then some p1
  else
    let p2 := { p1 with curContext := [] }
    if curC = [] then
      match p2.po.Translations with
      | some m => some { p2 with po := { p2.po with Translations := some (mupd m curT.id curT) } }
      | none => none
    else
      match p2.po.Contexts with
      | none => none
      | some cm =>
        match cm curC with
        | none =>
          some { p2 with po := { p2.po with
            Contexts := some (cupd cm curC (some (mupd (fun _ => none) curT.id curT))) } }
        | some none => none
        | some (some im) =>
          some { p2 with po := { p2.po with
            Contexts := some (cupd cm curC (some (mupd im curT.id curT))) } }

/-- parseCtx.parseContext. -/
def parseContextF (p : ParseCtx) (l : Str) : StepRes :=
  match pop p with
  | none => .panicked
  | some p1 =>
    match unquote (trimSpace l) with
    | none => .failed "po: failed to unquote msgctx: invalid syntax" p1
    | some txt => .ok { p1 with curContext := txt }

/-- parseCtx.parsePluralID. -/
def parsePluralIDF (p : ParseCtx) (l : Str) : StepRes :=
  match unquote (trimSpace l) with
  | none => .failed "po: failed to unquote plural ID: invalid syntax" p
  | some txt => .ok { p with curTranslation := { p.curTranslation with PluralID := txt } }

/-- parseCtx.parseID. -/
def parseIDF (p : ParseCtx) (s : Str) : StepRes :=
  match pop p with
  | none => .panicked
  | some p1 =>
    match unquote (trimSpace s) with
    | none => .failed ("po: failed to parse ID (" ++ String.mk (quoteGo s) ++ "): invalid syntax") p1
    | some id => .ok { p1 with curTranslation := { p1.curTranslation with id := id } }

/-- parseCtx.parseMessage: a plain msgstr stores form 0; an indexed
msgstr[N] parses N with Atoi and stores form N — a negative N reaches
Textlist.Set, which panics. -/
def parseMessageF (p : ParseCtx) (l0 : Str) : StepRes :=
  let l := trimSpace l0
  if !(goHasPfx l (s2l "[")) then
    match unquote l with
    | none => .failed "po: failed to unquote msgstr: invalid syntax" p
    | some txt =>
      match Textlist.Set p.curTranslation.Trs 0 txt with
      | none => .panicked
      | some trs => .ok { p with curTranslation := { p.curTranslation with Trs := trs } }
  else
    let idx := indexByte l ']'
    if idx = -1 then .failed "po: could not find terminating \x27]\x27" p
    else
      let inner := (l.drop 1).take (idx.toNat - 1)
      match goAtoi inner with
      | .synErr =>
        .failed ("po: failed to parse index: strconv.Atoi: parsing " ++
          String.mk (quoteGo inner) ++ ": invalid syntax") p
      | .rangeErr _ =>
        .failed ("po: failed to parse index: strconv.Atoi: parsing " ++
          String.mk (quoteGo inner) ++ ": value out of range") p
      | .ok i =>
        match unquote (trimSpace (l.drop (idx.toNat + 1))) with
        | none =>
          .failed ("po: failed to unquote msgstr[" ++ String.mk (intDec i) ++ "]: invalid syntax") p
        | some txt =>
          match Textlist.Set p.curTranslation.Trs i txt with
          | none => .panicked
          | some trs => .ok { p with curTranslation := { p.curTranslation with Trs := trs } }

/-- parseCtx.parseString: continuation of the last populated form when an
entry is pending, header accumulation otherwise.  With a pending entry
whose form list is still empty, Len-1 is -1 and textlist.Get panics. -/
def parseStringF (p : ParseCtx) (l : Str) : StepRes :=
  if p.curTranslation.id ≠ [] then
    match unquote l with
    | none => .failed "po: failed to unquote multi-line string: invalid syntax" p
    | some uq =>
      let lastidx := Textlist.Len p.curTranslation.Trs - 1
      match Textlist.Get p.curTranslation.Trs lastidx with
      | .panicked => .panicked
      | .found v =>
        match Textlist.Set p.curTranslation.Trs lastidx (v ++ uq) with
        | none => .panicked
        | some trs => .ok { p with curTranslation := { p.curTranslation with Trs := trs } }
      | .miss => .ok p
  else
    match unquote (trimSpace l) with
    | none => .failed "po: failed to unquote header: invalid syntax" p
    | some h => .ok { p with rawHeaders := p.rawHeaders ++ h }

def wrapFail (msg : String) : StepRes → StepRes
  | .failed e st => .failed (msg ++ ": " ++ e) st
  | r => r

/-- The switch of parseCtx.Run over one trimmed line, with the per-case
errors.Wrap messages. -/
def dispatch (p : ParseCtx) (l : Str) : StepRes :=
  if goHasPfx l (s2l "msgctxt") then
    wrapFail "po: failed to parse msgctxt" (parseContextF p (l.drop 7))
  else if goHasPfx l (s2l "msgid_plural") then
    wrapFail "po: failed to parse msgid_plural" (parsePluralIDF p (l.drop 12))
  else if goHasPfx l (s2l "msgid") then
    wrapFail "po: failed to parse msgid" (parseIDF p (l.drop 5))
  else if goHasPfx l (s2l "msgstr") then
    wrapFail "po: failed to parse msgstr" (parseMessageF p (l.drop 6))
  else if goHasPfx l (s2l "\"") && goHasSfx l (s2l "\"") then
    wrapFail "po: failed to parse header/multi-line string" (parseStringF p l)
  else .ok p

/-- One step of the Plural-Forms `key=value` walk: `nplurals` through
Atoi with the error discarded, `plural` stored verbatim (not compiled),
anything else skipped. -/
def pfStep (acc : Po) (i : Str) : Po :=
  let vs := splitN2 i '='
  if vs.length ≠ 2 then acc
  else
    let k := trimSpace (vs.headD [])
    let v := vs.getD 1 []
    if k = s2l "nplurals" then { acc with nplurals := atoiValue v }
    else if k = s2l "plural" then { acc with plural := v }
    else acc

/-- parseCtx.parseHeaders: appends two newlines, reads the MIME block,
extracts Language and Plural-Forms, and walks the `;`-separated
`key=value` list with pfStep. -/
def parseHeadersF (st0 : ParseCtx) : ParseCtx × Option String :=
  let st := { st0 with rawHeaders := st0.rawHeaders ++ s2l "\n\n" }
  match readMIME st.rawHeaders with
  | Except.error e => (st, some ("po: failed to parse MIM header: " ++ e))
  | Except.ok m =>
    let po1 := { st.po with
      Language := mimeGet m (s2l "Language")
      PluralForms := mimeGet m (s2l "Plural-Forms") }
    let st1 := { st with po := po1 }
    if po1.PluralForms = [] then (st1, none)
    else
      let pfs := splitOnCh po1.PluralForms ';'
      let po2 := pfs.foldl pfStep po1
      ({ st1 with po := po2 }, none)

/-- Result of the scan loop. -/
inductive RunRes
  | panicked
  | failed (e : String) (st : ParseCtx)
  | ok (st : ParseCtx)

/-- The scan loop of parseCtx.Run: while bytes remain, read a line, trim
it, dispatch it; a per-line error aborts in strict mode and is skipped in
lenient mode.  The fuel is at least the remaining byte count plus one
(each line read advances the position by at least one byte). -/
def runLoop : Nat → ParseCtx → RunRes
  | 0, st => .ok st
  | fuel + 1, st =>
    if st.pos < st.buf.length then
      let l0p := lineAt st.buf st.pos
      let st1 := { st with pos := l0p.2 }
      match dispatch st1 (trimSpace l0p.1) with
      | .panicked => .panicked
      | .failed e st2 => if st2.strict then .failed e st2 else runLoop fuel st2
      | .ok st2 => runLoop fuel st2
    else .ok st

/-- parseCtx.Run: the scan loop, the final unconditional pop, then header
post-processing (whose error is returned only in strict mode).  none
models a panic escaping the run. -/
def runF (st : ParseCtx) : Option (ParseCtx × Option String) :=
  match runLoop (st.buf.length + 1) st with
  | .panicked => none
  | .failed e st1 => some (st1, some e)
  | .ok st1 =>
    match pop st1 with
    | none => none
    | some st2 =>
      match parseHeadersF st2 with
      | (st3, some e) => some (st3, if st3.strict then some ("po: failed to parse header: " ++ e) else none)
      | (st3, none) => some (st3, none)

/-- Result of Parser.Parse: a panic, or the returned (catalog, error)
pair — either component may be nil. -/
inductive POut
  | panicked
  | ret (po : Option Po) (err : Option String)

/-- The tail of Parser.Parse: a strict-mode error from Run is wrapped
and returned with a nil catalog, otherwise the built catalog is returned
with a nil error. -/
def parseFinish (strict : Bool) (r : Option (ParseCtx × Option String)) : POut :=
  match r with
  | none => .panicked
  | some (st, some e) =>
    if strict then .ret none (some ("po: failed to parse: " ++ e))
    else .ret (some st.po) none
  | some (st, none) => .ret (some st.po) none

/-- Parser.Parse: runs the scan from a fresh state and finishes as
above. -/
def parserParse (strict : Bool) (data : Str) : POut :=
  parseFinish strict (runF
    { buf := data, pos := 0, po := NewPo, rawHeaders := [], strict := strict,
      curTranslation := newTranslation, curContext := [] })

def POut.poOf : POut → Option Po
  | .panicked => none
  | .ret po _ => po

def POut.errOf : POut → Option String
  | .panicked => none
  | .ret _ e => e

def POut.isPanic : POut → Bool
  | .panicked => true
  | .ret _ _ => false

/-- Lookup of an id in the default-context map of a catalog. -/
def poTrans (po : Po) (k : Str) : Option translation :=
  match po.Translations with
  | some m => m k
  | none => none

/-- Lookup of an id in a context map of a catalog. -/
def poCtxTrans (po : Po) (c k : Str) : Option translation :=
  match po.Contexts with
  | some cm =>
    match cm c with
    | some (some im) => im k
    | _ => none
  | none => none

/-!
Locale layer, embedded from locale.go.  domains is a nullable map from
domain name to a nullable catalog pointer.
-/

structure GoLocale where
  lang : Str
  defaultDomain : Str
  domains : Option (Str → Option (Option Po))

/-- Locale.GetND: fallbacks format the plural argument with the variadic
arguments spread. -/
def GoLocale.GetND (l : GoLocale) (dom str plural : Str) (n : Int) (vars : List GoVal) : Option Str :=
  match l.domains with
  | none => some (format plural vars)
  | some dm =>
    match dm dom with
    | none => some (format plural vars)
    | some none => some (format plural vars)
    | some (some po) => po.GetN str plural n vars

/-- Locale.GetD. -/
def GoLocale.GetD (l : GoLocale) (dom str : Str) (vars : List GoVal) : Option Str :=
  l.GetND dom str str 1 vars

/-- Locale.Get. -/
def GoLocale.Get (l : GoLocale) (str : Str) (vars : List GoVal) : Option Str :=
  l.GetD l.defaultDomain str vars

/-- Locale.GetN. -/
def GoLocale.GetN (l : GoLocale) (str plural : Str) (n : Int) (vars : List GoVal) : Option Str :=
  l.GetND l.defaultDomain str plural n vars

/-- Locale.GetNDC: both fallbacks pass the variadic argument slice as a
single value to the formatter (format(plural, vars), not
format(plural, vars...)). -/
def GoLocale.GetNDC (l : GoLocale) (dom str plural : Str) (n : Int) (ctx : Str) (vars : List GoVal) :
    Option Str :=
  match l.domains with
  | none => some (format plural [GoVal.slice vars])
  | some dm =>
    match dm dom with
    | none => some (format plural [GoVal.slice vars])
    | some none => some (format plural [GoVal.slice vars])
    | some (some po) => po.GetNC str plural n ctx vars

/-- Locale.GetDC. -/
def GoLocale.GetDC (l : GoLocale) (dom str ctx : Str) (vars : List GoVal) : Option Str :=
  l.GetNDC dom str str 1 ctx vars

/-- Locale.GetC. -/
def GoLocale.GetC (l : GoLocale) (str ctx : Str) (vars : List GoVal) : Option Str :=
  l.GetDC l.defaultDomain str ctx vars

/-- Locale.GetNC. -/
def GoLocale.GetNC (l : GoLocale) (str plural : Str) (n : Int) (ctx : Str) (vars : List GoVal) :
    Option Str :=
  l.GetNDC l.defaultDomain str plural n ctx vars


/-!
Fixtures and auxiliary definitions used by the claim theorems.
-/

/-- True when every character of s survives double-quoting unchanged (no
quote, backslash or newline). -/
def cleanStr (s : Str) : Bool := s.all (fun c => !(c == '"') && !(c == '\\') && !(c == '\n'))

/-- The line `msgid "X"`. -/
def poLine1 (X : Str) : Str :=
  'm' :: 's' :: 'g' :: 'i' :: 'd' :: ' ' :: '"' :: (X ++ ['"'])

/-- The line `msgstr "Y"`. -/
def poLine2 (Y : Str) : Str :=
  'm' :: 's' :: 'g' :: 's' :: 't' :: 'r' :: ' ' :: '"' :: (Y ++ ['"'])

/-- A buffer holding the single well-formed entry msgid "X" / msgstr "Y". -/
def mkEntryBuf (X Y : Str) : Str := poLine1 X ++ '\n' :: poLine2 Y

/-- The catalog that parsing mkEntryBuf X Y produces. -/
def entryPo (X Y : Str) : Po :=
  { Language := []
    PluralForms := []
    nplurals := 0
    plural := []
    Translations := some (mupd (fun _ => none) X ⟨X, [], [Y]⟩)
    Contexts := some (fun _ => none) }

/-- Modelled from the spec: plural-index computation over a compiled
(already parsed) expression, as the spec stipulates the catalog stores
it: unset plural count, a missing compiled expression or an evaluation
error give 0; a boolean gives 1/0; an integer v above nplurals clamps
to 0. -/
def pluralFormCompiled (nplurals : Int) (compiled : Option Expr) (n : Int) : Int :=
  if nplurals < 1 then 0
  else
    match compiled with
    | none => 0
    | some e =>
      match evalExpr n e with
      | none => 0
      | some (.b bv) => if bv then 1 else 0
      | some (.i iv) => if iv > nplurals then 0 else iv

def isOkE {α : Type} : Except String α → Bool
  | Except.ok _ => true
  | Except.error _ => false

/-- Modelled from the spec (section 4.2): load-time processing of the
Plural-Forms value under the claim that the `plural=` expression is
compiled at load time, a malformed expression being an error. -/
def pluralFormsCompileSpec (v : Str) : Except String (Int × Option Expr) :=
  (splitOnCh v ';').foldlM (fun acc i =>
    let vs := splitN2 i '='
    if vs.length ≠ 2 then Except.ok acc
    else
      let k := trimSpace (vs.headD [])
      let w := vs.getD 1 []
      if k = s2l "nplurals" then Except.ok ((atoiValue w, acc.2) : Int × Option Expr)
      else if k = s2l "plural" then
        match parseExpr w with
        | none => Except.error "po: failed to parse plural form spec"
        | some e => Except.ok (acc.1, some e)
      else Except.ok acc) ((0, none) : Int × Option Expr)

/-- No committed translation has an empty id, in either map. -/
def noEmptyIds (po : Po) : Prop :=
  (∃ m, po.Translations = some m ∧ m [] = none) ∧
  (∃ cm, po.Contexts = some cm ∧
    ∀ c, cm c = none ∨ ∃ im, cm c = some (some im) ∧ im [] = none)

/-- Strict-mode abort fixture: the second line has no terminating ']'. -/
def buf1fix : Str := s2l "msgid \"a\"\nmsgstr[0 \"x\""

def c1msgfix : String :=
  "po: failed to parse: po: failed to parse msgstr: po: could not find terminating \x27]\x27"

/-- Negative-form-index fixture. -/
def buf2fix : Str := s2l "msgid \"a\"\nmsgstr[-1] \"x\""

/-- A catalog holding one translation with a singular form only, no
plural id, and a two-form plural header. -/
def po3fix : Po :=
  { NewPo with
    nplurals := 2
    plural := s2l "n != 1"
    Translations := some (mupd (fun _ => none) (s2l "a") ⟨s2l "a", [], [s2l "one"]⟩) }

/-- A catalog whose plural expression evaluates to a negative integer. -/
def po4fix : Po := { NewPo with nplurals := 2, plural := s2l "0-1" }

/-- A catalog whose stored plural expression is malformed. -/
def po5fix : Po := { NewPo with nplurals := 2, plural := s2l "((" }

/-- A locale with an initialized but empty domain map (as NewLocale
builds). -/
def loc6fix : GoLocale :=
  { lang := s2l "en", defaultDomain := s2l "default", domains := some (fun _ => none) }

/-- A buffer whose header declares a malformed plural expression. -/
def buf7fix : Str := s2l "msgid \"\"\nmsgstr \"\"\n\"Plural-Forms: nplurals=2; plural=((\\n\"\n"

/-- msgctxt followed by an empty-id msgid and then a real entry. -/
def buf9fix : Str := s2l "msgctxt \"C\"\nmsgid \"\"\nmsgid \"x\"\nmsgstr \"y\"\n"

/-- A parser state with a pending context and no pending entry. -/
def st9fix : ParseCtx :=
  { buf := [], pos := 0, po := NewPo, rawHeaders := [], strict := false,
    curTranslation := newTranslation, curContext := s2l "C" }


/-- The end-to-end example buffer of the spec (section 8). -/
def specExampleBuf : Str := s2l
  "msgid \"\"\nmsgstr \"\"\n\"Plural-Forms: nplurals=2; plural=(n != 1);\\n\"\n\nmsgid \"One item\"\nmsgid_plural \"%d items\"\nmsgstr[0] \"One item\"\nmsgstr[1] \"%d items\"\n"

/-!
Helper lemmas.
-/

theorem pluralEval_nil (n : Int) : pluralEval [] n = none := rfl

theorem parseExpr_nil : parseExpr [] = none := rfl

theorem pluralForm_of_small (po : Po) (n : Int) (h : po.nplurals < 1) :
    po.pluralForm n = 0 := by
  unfold Po.pluralForm; rw [if_pos h]

theorem pluralForm_of_none (po : Po) (n : Int) (h : pluralEval po.plural n = none) :
    po.pluralForm n = 0 := by
  unfold Po.pluralForm
  by_cases h1 : po.nplurals < 1
  · rw [if_pos h1]
  · rw [if_neg h1]
    by_cases hp : po.plural = []
    · rw [if_pos hp]
    · rw [if_neg hp, h]

theorem pluralForm_of_int (po : Po) (n v : Int) (h1 : ¬po.nplurals < 1)
    (h : pluralEval po.plural n = some (.i v)) :
    po.pluralForm n = if po.nplurals < v then 0 else v := by
  unfold Po.pluralForm
  rw [if_neg h1]
  by_cases hp : po.plural = []
  · rw [hp, pluralEval_nil] at h
    exact Option.noConfusion h
  · rw [if_neg hp, h]

theorem pluralForm_of_bool (po : Po) (n : Int) (bv : Bool) (h1 : ¬po.nplurals < 1)
    (h : pluralEval po.plural n = some (.b bv)) :
    po.pluralForm n = if bv then 1 else 0 := by
  unfold Po.pluralForm
  rw [if_neg h1]
  by_cases hp : po.plural = []
  · rw [hp, pluralEval_nil] at h
    exact Option.noConfusion h
  · rw [if_neg hp, h]

theorem parseFinish_ret (s : Bool) (r : Option (ParseCtx × Option String))
    (po : Option Po) (e : Option String) (h : parseFinish s r = .ret po e) :
    (e.isSome → po = none ∧ s = true) ∧ (e = none → po.isSome = true) := by
  rcases r with _ | ⟨st, oe⟩
  · exact POut.noConfusion h
  · rcases oe with _ | e0
    · have h2 : POut.ret (some st.po) none = POut.ret po e := h
      injection h2 with hpo he
      subst hpo; subst he
      exact ⟨(by intro hc; cases hc), fun _ => rfl⟩
    · cases s with
      | true =>
        have h2 : POut.ret none (some ("po: failed to parse: " ++ e0)) = POut.ret po e := h
        injection h2 with hpo he
        subst hpo; subst he
        exact ⟨fun _ => ⟨rfl, rfl⟩, (by intro hc; cases hc)⟩
      | false =>
        have h2 : POut.ret (some st.po) none = POut.ret po e := h
        injection h2 with hpo he
        subst hpo; subst he
        exact ⟨(by intro hc; cases hc), fun _ => rfl⟩

theorem parseFinish_lenient (r : Option (ParseCtx × Option String)) :
    (parseFinish false r).isPanic = true ∨
      ((parseFinish false r).poOf.isSome = true ∧ (parseFinish false r).errOf = none) := by
  rcases r with _ | ⟨st, oe⟩
  · left; rfl
  · rcases oe with _ | e0
    · right; exact ⟨rfl, rfl⟩
    · right; exact ⟨rfl, rfl⟩

/-!
Claim C1.
-/

/-- C1 (counterexample): Parser.Parse in strict mode on a buffer with a
malformed msgstr index returns a nil catalog alongside the error — not
the partially built catalog the claim promises, and in particular not a
non-nil catalog. -/
theorem c1_counterexample :
    (parserParse true buf1fix).errOf = some c1msgfix ∧
    (parserParse true buf1fix).poOf = none := ⟨rfl, rfl⟩

/-- C1 (amended): Parse never returns a partial catalog together with an
error: whenever it returns a non-nil error the catalog is nil (and the
mode was strict), whenever it returns a nil error the catalog is non-nil,
and in lenient mode it either panics or returns a non-nil catalog with a
nil error. -/
theorem c1_amended (s : Bool) (buf : Str) (po : Option Po) (e : Option String)
    (h : parserParse s buf = .ret po e) :
    (e.isSome → po = none ∧ s = true) ∧ (e = none → po.isSome = true) ∧
    ((parserParse false buf).isPanic = true ∨
      ((parserParse false buf).poOf.isSome = true ∧ (parserParse false buf).errOf = none)) := by
  unfold parserParse at h ⊢
  refine ⟨(parseFinish_ret _ _ _ _ h).1, (parseFinish_ret _ _ _ _ h).2, parseFinish_lenient _⟩

/-- C1 (witness): the amended theorem applied at the concrete strict
abort. -/
theorem c1_witness :
    parserParse true buf1fix = POut.ret none (some c1msgfix) ∧
    (((some c1msgfix : Option String).isSome → (none : Option Po) = none ∧ true = true) ∧
     ((some c1msgfix : Option String) = none → (none : Option Po).isSome = true) ∧
     ((parserParse false buf1fix).isPanic = true ∨
       ((parserParse false buf1fix).poOf.isSome = true ∧
        (parserParse false buf1fix).errOf = none))) :=
  ⟨rfl, c1_amended true buf1fix none (some c1msgfix) rfl⟩

/-!
Claim C2.
-/

/-- C2: a msgstr[-1] line does not behave as a per-line error: Atoi
accepts "-1", and the write into the form list panics (in both modes),
instead of the line being skipped or aborting the scan with an error. -/
theorem c2_negative_index_panics (s : Bool) :
    parserParse s buf2fix = .panicked ∧ goAtoi (s2l "-1") = .ok (-1) := by
  cases s <;> exact ⟨rfl, rfl⟩

/-!
Claims C4 and C5.
-/

/-- C4 (counterexample): a catalog whose expression evaluates to the
integer -1 makes pluralForm return -1, a negative index. -/
theorem c4_counterexample :
    po4fix.pluralForm 7 = -1 ∧ ¬(0 ≤ po4fix.pluralForm 7) := by decide

/-- C4 (amended): with a declared plural count, an integer result v is
returned as the index unless v > nplurals, which clamps to 0 — so the
index is non-negative whenever the expression's value is; a boolean
result maps to 1/0; and the index never exceeds max 1 nplurals.  (A
negative expression value is returned unclamped, which is the sole
failure of the original claim.) -/
theorem c4_amended (po : Po) (n : Int) :
    (∀ v : Int, 1 ≤ po.nplurals → pluralEval po.plural n = some (.i v) →
      po.pluralForm n = if po.nplurals < v then 0 else v) ∧
    (∀ bv : Bool, 1 ≤ po.nplurals → pluralEval po.plural n = some (.b bv) →
      po.pluralForm n = if bv then 1 else 0) ∧
    (∀ v : Int, 1 ≤ po.nplurals → pluralEval po.plural n = some (.i v) → 0 ≤ v →
      0 ≤ po.pluralForm n) ∧
    po.pluralForm n ≤ max 1 po.nplurals := by
  refine ⟨fun v h1 h2 => pluralForm_of_int po n v (by omega) h2,
    fun bv h1 h2 => pluralForm_of_bool po n bv (by omega) h2, ?_, ?_⟩
  · intro v h1 h2 hv
    rw [pluralForm_of_int po n v (by omega) h2]
    split <;> omega
  · by_cases h1 : po.nplurals < 1
    · rw [pluralForm_of_small po n h1]; omega
    rcases hev : pluralEval po.plural n with _ | v
    · rw [pluralForm_of_none po n hev]; omega
    rcases v with iv | bv
    · rw [pluralForm_of_int po n iv h1 hev]; split <;> omega
    · rw [pluralForm_of_bool po n bv h1 hev]; split <;> omega

/-- C4 (witness): the amended theorem applied to a catalog with
nplurals=2 and expression `n != 1` at n=5. -/
theorem c4_witness :
    (1 : Int) ≤ po3fix.nplurals ∧ pluralEval po3fix.plural 5 = some (.b true) ∧
    po3fix.pluralForm 5 = if true then 1 else 0 :=
  ⟨by decide, by decide, (c4_amended po3fix 5).2.1 true (by decide) (by decide)⟩

/-- C5: a malformed stored expression or a failed evaluation makes
pluralForm return index 0 rather than propagating an error (pluralForm
and the lookups over it are total functions). -/
theorem c5_eval_failure_index_zero (po : Po) (n : Int)
    (h : pluralEval po.plural n = none) : po.pluralForm n = 0 :=
  pluralForm_of_none po n h

/-- C5 (witness): the theorem applied to a catalog storing the malformed
expression `((`. -/
theorem c5_witness :
    pluralEval po5fix.plural 3 = none ∧ po5fix.pluralForm 3 = 0 :=
  ⟨by decide, c5_eval_failure_index_zero po5fix 3 (by decide)⟩

/-!
Claim C6.
-/

/-- C6: on the fallback path of GetNDC (empty domain map), the variadic
arguments are passed to the formatter as one slice value rather than
spread: formatting "%d items" with the single argument 5 yields
"[5] items", while the spread call (as GetND makes it) yields
"5 items". -/
theorem c6_getndc_unspread_vars :
    loc6fix.GetNDC (s2l "default") (s2l "x") (s2l "%d items") 2 (s2l "c") [.i 5] =
      some (s2l "[5] items") ∧
    format (s2l "%d items") [.i 5] = s2l "5 items" ∧
    loc6fix.GetND (s2l "default") (s2l "x") (s2l "%d items") 2 [.i 5] =
      some (s2l "5 items") :=
  ⟨rfl, rfl, rfl⟩

/-!
Claim C7.
-/

/-- C7 (counterexample): the parser stores the raw `plural=` text without
compiling it — so a strict-mode parse of a buffer whose header carries
the malformed expression `((` succeeds without any error, the catalog's
stored plural field is the verbatim text `((` (which does not parse),
while the spec's compile-at-load processing of the same Plural-Forms
value fails.  Compilation therefore does not happen once at load time;
it happens inside pluralForm at every lookup. -/
theorem c7_counterexample :
    (parserParse true buf7fix).errOf = none ∧
    (parserParse true buf7fix).poOf.map Po.plural = some (s2l "((") ∧
    (parserParse true buf7fix).poOf.map Po.PluralForms = some (s2l "nplurals=2; plural=((") ∧
    parseExpr (s2l "((") = none ∧
    isOkE (pluralFormsCompileSpec (s2l "nplurals=2; plural=((")) = false := by
  refine ⟨rfl, rfl, rfl, rfl, rfl⟩

theorem pfc_small (np : Int) (compiled : Option Expr) (n : Int) (h : np < 1) :
    pluralFormCompiled np compiled n = 0 := by
  unfold pluralFormCompiled; rw [if_pos h]

theorem pfc_none (np n : Int) (h1 : ¬np < 1) :
    pluralFormCompiled np none n = 0 := by
  unfold pluralFormCompiled; rw [if_neg h1]

theorem pfc_some_none (np n : Int) (e : Expr) (h1 : ¬np < 1) (h : evalExpr n e = none) :
    pluralFormCompiled np (some e) n = 0 := by
  unfold pluralFormCompiled
  rw [if_neg h1]
  show ((match evalExpr n e with
        | none => 0
        | some (.b bv) => if bv then 1 else 0
        | some (.i iv) => if iv > np then 0 else iv : Int)) = 0
  rw [h]

theorem pfc_some_int (np n : Int) (e : Expr) (iv : Int) (h1 : ¬np < 1)
    (h : evalExpr n e = some (.i iv)) :
    pluralFormCompiled np (some e) n = if np < iv then 0 else iv := by
  unfold pluralFormCompiled
  rw [if_neg h1]
  show ((match evalExpr n e with
        | none => 0
        | some (.b bv) => if bv then 1 else 0
        | some (.i iv) => if iv > np then 0 else iv : Int)) = _
  rw [h]

theorem pfc_some_bool (np n : Int) (e : Expr) (bv : Bool) (h1 : ¬np < 1)
    (h : evalExpr n e = some (.b bv)) :
    pluralFormCompiled np (some e) n = if bv then 1 else 0 := by
  unfold pluralFormCompiled
  rw [if_neg h1]
  show ((match evalExpr n e with
        | none => 0
        | some (.b bv) => if bv then 1 else 0
        | some (.i iv) => if iv > np then 0 else iv : Int)) = _
  rw [h]

/-- C7 (amended): the catalog's stored representation is the raw
expression text, and pluralForm parses it from source on every
evaluation; the result agrees extensionally with evaluating against the
expression compiled once (so only the load-time behaviour — no strict
error for a malformed expression, repeated parsing work — differs from
the claim). -/
theorem c7_amended (po : Po) (n : Int) :
    po.pluralForm n = pluralFormCompiled po.nplurals (parseExpr po.plural) n := by
  by_cases h1 : po.nplurals < 1
  · rw [pluralForm_of_small po n h1, pfc_small _ _ _ h1]
  cases hpe : parseExpr po.plural with
  | none =>
    rw [pfc_none _ _ h1]
    exact pluralForm_of_none po n (by unfold pluralEval; rw [hpe]; rfl)
  | some e =>
    cases hev : evalExpr n e with
    | none =>
      rw [pfc_some_none _ _ _ h1 hev]
      exact pluralForm_of_none po n (by unfold pluralEval; rw [hpe, Option.some_bind, hev])
    | some v =>
      have hpe2 : pluralEval po.plural n = some v := by
        unfold pluralEval; rw [hpe, Option.some_bind, hev]
      cases v with
      | i iv =>
        rw [pfc_some_int _ _ _ _ h1 hev]
        exact pluralForm_of_int po n iv h1 hpe2
      | b bv =>
        rw [pfc_some_bool _ _ _ _ h1 hev]
        exact pluralForm_of_bool po n bv h1 hpe2

/-!
Claim C3.
-/

/-- C3 (counterexample): for a catalog holding the id "a" with no plural
id and only the singular form, GetN at n=5 (plural index 1) returns the
formatted empty pluralId, not the caller-supplied fallback "FALLBACK". -/
theorem c3_counterexample :
    po3fix.GetN (s2l "a") (s2l "FALLBACK") 5 [] = some [] ∧
    format (s2l "FALLBACK") [] = s2l "FALLBACK" ∧
    po3fix.GetN (s2l "a") (s2l "FALLBACK") 5 [] ≠ some (format (s2l "FALLBACK") []) := by
  refine ⟨rfl, rfl, by decide⟩

/-- C3 (amended): when the id has a stored Translation, GetN returns the
formatted form at index pluralForm(n) when stored, else the formatted
pluralId — even when that is empty; the caller-supplied pluralFallback is
returned (formatted) only when the id has no stored Translation. -/
theorem c3_amended :
    (∀ (po : Po) (m : TransMap) (tr : translation) (str fb : Str) (n : Int) (vars : List GoVal),
      po.Translations = some m → m str = some tr →
      po.GetN str fb n vars = (tr.getN (po.pluralForm n)).map (fun t => format t vars)) ∧
    (∀ (tr : translation) (idx : Int), 0 ≤ idx → Textlist.Len tr.Trs ≤ idx →
      tr.getN idx = some tr.PluralID) ∧
    (∀ (tr : translation) (idx : Int) (v : Str), Textlist.Get tr.Trs idx = .found v →
      tr.getN idx = some v) ∧
    (∀ (po : Po) (str fb : Str) (n : Int) (vars : List GoVal),
      poTrans po str = none → po.GetN str fb n vars = some (format fb vars)) := by
  refine ⟨?_, ?_, ?_, ?_⟩
  · intro po m tr str fb n vars hm htr
    unfold Po.GetN
    rw [hm]
    show (match m str with
          | some pot => Option.map (fun t => format t vars) (pot.getN (po.pluralForm n))
          | none => some (format fb vars)) =
        Option.map (fun t => format t vars) (tr.getN (po.pluralForm n))
    rw [htr]
  · intro tr idx _ hlen
    unfold translation.getN
    unfold Textlist.Get
    rw [if_pos hlen]
  · intro tr idx v hfound
    unfold translation.getN
    rw [hfound]
  · intro po str fb n vars hnone
    unfold poTrans at hnone
    unfold Po.GetN
    cases hm : po.Translations with
    | none => rfl
    | some m =>
      rw [hm] at hnone
      have hns : m str = none := hnone
      show (match m str with
            | some pot => Option.map (fun t => format t vars) (pot.getN (po.pluralForm n))
            | none => some (format fb vars)) = some (format fb vars)
      rw [hns]

/-- C3 (witness): the amended theorem applied at the fixture catalog: the
translated-path equation at id "a", and the fallback equation at the
absent id "zz". -/
theorem c3_witness :
    (po3fix.Translations = some (mupd (fun _ => none) (s2l "a") ⟨s2l "a", [], [s2l "one"]⟩) ∧
     po3fix.GetN (s2l "a") (s2l "FB") 5 [] =
       ((⟨s2l "a", [], [s2l "one"]⟩ : translation).getN (po3fix.pluralForm 5)).map
         (fun t => format t []) ) ∧
    (poTrans po3fix (s2l "zz") = none ∧
     po3fix.GetN (s2l "zz") (s2l "FB") 5 [] = some (format (s2l "FB") [])) :=
  ⟨⟨rfl, c3_amended.1 po3fix (mupd (fun _ => none) (s2l "a") ⟨s2l "a", [], [s2l "one"]⟩)
      ⟨s2l "a", [], [s2l "one"]⟩ (s2l "a") (s2l "FB") 5 [] rfl (by decide)⟩,
   ⟨by decide, c3_amended.2.2.2 po3fix (s2l "zz") (s2l "FB") 5 [] (by decide)⟩⟩

/-!
Claim C9: invariant machinery.
-/

theorem noEmptyIds_NewPo : noEmptyIds NewPo :=
  ⟨⟨fun _ => none, rfl, rfl⟩, ⟨fun _ => none, rfl, fun _ => Or.inl rfl⟩⟩

theorem noEmptyIds_of_maps (po1 po2 : Po) (ht : po2.Translations = po1.Translations)
    (hc : po2.Contexts = po1.Contexts) (h : noEmptyIds po1) : noEmptyIds po2 := by
  obtain ⟨⟨m, hm, hm0⟩, ⟨cm, hcm, hcm0⟩⟩ := h
  exact ⟨⟨m, by rw [ht, hm], hm0⟩, ⟨cm, by rw [hc, hcm], hcm0⟩⟩

theorem pop_inv (st st2 : ParseCtx) (h : noEmptyIds st.po) (hp : pop st = some st2) :
    noEmptyIds st2.po := by
  obtain ⟨⟨m, hm, hm0⟩, ⟨cm, hcm, hcm0⟩⟩ := h
  simp only [pop] at hp
  by_cases hid : st.curTranslation.id = []
  · rw [if_pos hid] at hp
    injection hp with hp2
    subst hp2
    exact ⟨⟨m, hm, hm0⟩, ⟨cm, hcm, hcm0⟩⟩
  · rw [if_neg hid] at hp
    by_cases hcc : st.curContext = []
    · rw [if_pos hcc] at hp
      rw [hm] at hp
      dsimp only at hp
      injection hp with hp2
      subst hp2
      refine ⟨⟨mupd m st.curTranslation.id st.curTranslation, rfl, ?_⟩, ⟨cm, hcm, hcm0⟩⟩
      simp only [mupd]
      rw [if_neg (fun hh => hid hh.symm), hm0]
    · rw [if_neg hcc] at hp
      rw [hcm] at hp
      dsimp only at hp
      cases hlk : cm st.curContext with
      | none =>
        rw [hlk] at hp
        dsimp only at hp
        injection hp with hp2
        subst hp2
        refine ⟨⟨m, hm, hm0⟩,
          ⟨cupd cm st.curContext (some (mupd (fun _ => none) st.curTranslation.id st.curTranslation)),
            rfl, ?_⟩⟩
        intro c
        simp only [cupd]
        by_cases hcq : c = st.curContext
        · rw [if_pos hcq]
          refine Or.inr ⟨mupd (fun _ => none) st.curTranslation.id st.curTranslation, rfl, ?_⟩
          simp only [mupd]
          rw [if_neg (fun hh => hid hh.symm)]
        · rw [if_neg hcq]
          exact hcm0 c
      | some oim =>
        cases oim with
        | none => rw [hlk] at hp; exact Option.noConfusion hp
        | some im =>
          rw [hlk] at hp
          dsimp only at hp
          injection hp with hp2
          subst hp2
          have him0 : im [] = none := by
            rcases hcm0 st.curContext with hnone | ⟨im2, him2, him20⟩
            · rw [hlk] at hnone; cases hnone
            · rw [hlk] at him2
              injection him2 with him3
              injection him3 with him4
              rw [← him4] at him20
              exact him20
          refine ⟨⟨m, hm, hm0⟩,
            ⟨cupd cm st.curContext (some (mupd im st.curTranslation.id st.curTranslation)),
              rfl, ?_⟩⟩
          intro c
          simp only [cupd]
          by_cases hcq : c = st.curContext
          · rw [if_pos hcq]
            refine Or.inr ⟨mupd im st.curTranslation.id st.curTranslation, rfl, ?_⟩
            simp only [mupd]
            rw [if_neg (fun hh => hid hh.symm), him0]
          · rw [if_neg hcq]
            exact hcm0 c

theorem pop_inv_po (st st2 : ParseCtx) (h : noEmptyIds st.po) (q : Po)
    (hp : pop st = some st2) (hq : q = st2.po) : noEmptyIds q := by
  rw [hq]; exact pop_inv st st2 h hp

/-- C9 (first half, holding part): a commit of a pending entry with a
non-empty id does clear the pending context. -/
theorem pop_clears (st st2 : ParseCtx) (hid : st.curTranslation.id ≠ [])
    (h : pop st = some st2) : st2.curContext = [] := by
  simp only [pop] at h
  rw [if_neg hid] at h
  by_cases hcc : st.curContext = []
  · rw [if_pos hcc] at h
    cases hm : st.po.Translations with
    | none => rw [hm] at h; exact Option.noConfusion h
    | some m =>
      rw [hm] at h
      dsimp only at h
      injection h with h2
      subst h2
      rfl
  · rw [if_neg hcc] at h
    cases hcm : st.po.Contexts with
    | none => rw [hcm] at h; exact Option.noConfusion h
    | some cm =>
      rw [hcm] at h
      dsimp only at h
      cases hlk : cm st.curContext with
      | none => rw [hlk] at h; dsimp only at h; injection h with h2; subst h2; rfl
      | some oim =>
        cases oim with
        | none => rw [hlk] at h; exact Option.noConfusion h
        | some im => rw [hlk] at h; dsimp only at h; injection h with h2; subst h2; rfl

theorem wrapFail_failed (msg : String) (r : StepRes) (e : String) (s2 : ParseCtx)
    (h : wrapFail msg r = .failed e s2) : ∃ e0, r = .failed e0 s2 := by
  cases r with
  | panicked => exact StepRes.noConfusion h
  | failed e0 s0 =>
    unfold wrapFail at h
    injection h with h1 h2
    subst h2
    exact ⟨e0, rfl⟩
  | ok s0 => exact StepRes.noConfusion h

theorem wrapFail_ok (msg : String) (r : StepRes) (s2 : ParseCtx)
    (h : wrapFail msg r = .ok s2) : r = .ok s2 := by
  cases r with
  | panicked => exact StepRes.noConfusion h
  | failed e0 s0 => exact StepRes.noConfusion h
  | ok s0 => exact h

theorem parseContextF_inv (p : ParseCtx) (l : Str) (h : noEmptyIds p.po) :
    (∀ e s2, parseContextF p l = .failed e s2 → noEmptyIds s2.po) ∧
    (∀ s2, parseContextF p l = .ok s2 → noEmptyIds s2.po) := by
  constructor
  · intro e s2 hh
    unfold parseContextF at hh
    cases hp : pop p with
    | none => rw [hp] at hh; exact StepRes.noConfusion hh
    | some p1 =>
      rw [hp] at hh
      dsimp only at hh
      cases hu : unquote (trimSpace l) with
      | none => rw [hu] at hh; dsimp only at hh; cases hh; exact pop_inv _ _ h hp
      | some txt => rw [hu] at hh; dsimp only at hh; exact StepRes.noConfusion hh
  · intro s2 hh
    unfold parseContextF at hh
    cases hp : pop p with
    | none => rw [hp] at hh; exact StepRes.noConfusion hh
    | some p1 =>
      rw [hp] at hh
      dsimp only at hh
      cases hu : unquote (trimSpace l) with
      | none => rw [hu] at hh; dsimp only at hh; exact StepRes.noConfusion hh
      | some txt => rw [hu] at hh; dsimp only at hh; cases hh; exact pop_inv_po p p1 h _ hp rfl

theorem parsePluralIDF_inv (p : ParseCtx) (l : Str) (h : noEmptyIds p.po) :
    (∀ e s2, parsePluralIDF p l = .failed e s2 → noEmptyIds s2.po) ∧
    (∀ s2, parsePluralIDF p l = .ok s2 → noEmptyIds s2.po) := by
  constructor
  · intro e s2
    unfold parsePluralIDF
    try dsimp only
    repeat' split
    all_goals intro hh
    all_goals first
      | exact StepRes.noConfusion hh
      | (cases hh; exact h)
  · intro s2
    unfold parsePluralIDF
    try dsimp only
    repeat' split
    all_goals intro hh
    all_goals first
      | exact StepRes.noConfusion hh
      | (cases hh; exact h)

theorem parseIDF_inv (p : ParseCtx) (l : Str) (h : noEmptyIds p.po) :
    (∀ e s2, parseIDF p l = .failed e s2 → noEmptyIds s2.po) ∧
    (∀ s2, parseIDF p l = .ok s2 → noEmptyIds s2.po) := by
  constructor
  · intro e s2 hh
    unfold parseIDF at hh
    cases hp : pop p with
    | none => rw [hp] at hh; exact StepRes.noConfusion hh
    | some p1 =>
      rw [hp] at hh
      dsimp only at hh
      cases hu : unquote (trimSpace l) with
      | none => rw [hu] at hh; dsimp only at hh; cases hh; exact pop_inv _ _ h hp
      | some txt => rw [hu] at hh; dsimp only at hh; exact StepRes.noConfusion hh
  · intro s2 hh
    unfold parseIDF at hh
    cases hp : pop p with
    | none => rw [hp] at hh; exact StepRes.noConfusion hh
    | some p1 =>
      rw [hp] at hh
      dsimp only at hh
      cases hu : unquote (trimSpace l) with
      | none => rw [hu] at hh; dsimp only at hh; exact StepRes.noConfusion hh
      | some txt => rw [hu] at hh; dsimp only at hh; cases hh; exact pop_inv_po p p1 h _ hp rfl

theorem parseMessageF_inv (p : ParseCtx) (l : Str) (h : noEmptyIds p.po) :
    (∀ e s2, parseMessageF p l = .failed e s2 → noEmptyIds s2.po) ∧
    (∀ s2, parseMessageF p l = .ok s2 → noEmptyIds s2.po) := by
  constructor
  · intro e s2
    unfold parseMessageF
    try dsimp only
    repeat' split
    all_goals intro hh
    all_goals first
      | exact StepRes.noConfusion hh
      | (cases hh; exact h)
  · intro s2
    unfold parseMessageF
    try dsimp only
    repeat' split
    all_goals intro hh
    all_goals first
      | exact StepRes.noConfusion hh
      | (cases hh; exact h)

theorem parseStringF_inv (p : ParseCtx) (l : Str) (h : noEmptyIds p.po) :
    (∀ e s2, parseStringF p l = .failed e s2 → noEmptyIds s2.po) ∧
    (∀ s2, parseStringF p l = .ok s2 → noEmptyIds s2.po) := by
  constructor
  · intro e s2
    unfold parseStringF
    try dsimp only
    repeat' split
    all_goals intro hh
    all_goals first
      | exact StepRes.noConfusion hh
      | (cases hh; exact h)
  · intro s2
    unfold parseStringF
    try dsimp only
    repeat' split
    all_goals intro hh
    all_goals first
      | exact StepRes.noConfusion hh
      | (cases hh; exact h)

theorem dispatch_inv (p : ParseCtx) (l : Str) (h : noEmptyIds p.po) :
    (∀ e s2, dispatch p l = .failed e s2 → noEmptyIds s2.po) ∧
    (∀ s2, dispatch p l = .ok s2 → noEmptyIds s2.po) := by
  constructor
  · intro e s2
    unfold dispatch
    repeat' split
    all_goals intro hh
    all_goals first
      | exact StepRes.noConfusion hh
      | (cases hh; exact h)
      | (obtain ⟨e0, hr⟩ := wrapFail_failed _ _ _ _ hh;
         first
          | exact (parseContextF_inv _ _ h).1 _ _ hr
          | exact (parsePluralIDF_inv _ _ h).1 _ _ hr
          | exact (parseIDF_inv _ _ h).1 _ _ hr
          | exact (parseMessageF_inv _ _ h).1 _ _ hr
          | exact (parseStringF_inv _ _ h).1 _ _ hr)
  · intro s2
    unfold dispatch
    repeat' split
    all_goals intro hh
    all_goals first
      | exact StepRes.noConfusion hh
      | (cases hh; exact h)
      | (have hr := wrapFail_ok _ _ _ hh;
         first
          | exact (parseContextF_inv _ _ h).2 _ hr
          | exact (parsePluralIDF_inv _ _ h).2 _ hr
          | exact (parseIDF_inv _ _ h).2 _ hr
          | exact (parseMessageF_inv _ _ h).2 _ hr
          | exact (parseStringF_inv _ _ h).2 _ hr)

theorem pfStep_maps (acc : Po) (i : Str) :
    (pfStep acc i).Translations = acc.Translations ∧ (pfStep acc i).Contexts = acc.Contexts := by
  unfold pfStep
  try dsimp only
  repeat' split
  all_goals exact ⟨rfl, rfl⟩

theorem foldPF_maps (pfs : List Str) (po : Po) :
    (pfs.foldl pfStep po).Translations = po.Translations ∧
    (pfs.foldl pfStep po).Contexts = po.Contexts := by
  induction pfs generalizing po with
  | nil => exact ⟨rfl, rfl⟩
  | cons i rest ih =>
    simp only [List.foldl_cons]
    obtain ⟨h1, h2⟩ := ih (pfStep po i)
    obtain ⟨g1, g2⟩ := pfStep_maps po i
    exact ⟨h1.trans g1, h2.trans g2⟩

theorem parseHeadersF_maps (st : ParseCtx) :
    (parseHeadersF st).1.po.Translations = st.po.Translations ∧
    (parseHeadersF st).1.po.Contexts = st.po.Contexts := by
  unfold parseHeadersF
  try dsimp only
  cases hm : readMIME (st.rawHeaders ++ s2l "\n\n") with
  | error e => exact ⟨rfl, rfl⟩
  | ok m =>
    dsimp only
    split
    · exact ⟨rfl, rfl⟩
    · obtain ⟨h1, h2⟩ := foldPF_maps
        (splitOnCh (mimeGet m (s2l "Plural-Forms")) ';')
        { st.po with
          Language := mimeGet m (s2l "Language")
          PluralForms := mimeGet m (s2l "Plural-Forms") }
      exact ⟨h1, h2⟩

set_option maxHeartbeats 2000000 in
theorem runLoop_inv (fuel : Nat) : ∀ (st : ParseCtx), noEmptyIds st.po →
    (∀ e s2, runLoop fuel st = .failed e s2 → noEmptyIds s2.po) ∧
    (∀ s2, runLoop fuel st = .ok s2 → noEmptyIds s2.po) := by
  induction fuel with
  | zero =>
    intro st h
    exact ⟨fun e s2 hh => RunRes.noConfusion hh, fun s2 hh => by cases hh; exact h⟩
  | succ f ih =>
    intro st h
    constructor
    · intro e s2 hh
      unfold runLoop at hh
      by_cases hpos : st.pos < st.buf.length
      · rw [if_pos hpos] at hh
        dsimp only at hh
        cases hd : dispatch { st with pos := (lineAt st.buf st.pos).2 }
            (trimSpace (lineAt st.buf st.pos).1) with
        | panicked => rw [hd] at hh; dsimp only at hh; exact RunRes.noConfusion hh
        | failed e0 s0 =>
          rw [hd] at hh
          dsimp only at hh
          have h0 : noEmptyIds s0.po :=
            (dispatch_inv { st with pos := (lineAt st.buf st.pos).2 }
              (trimSpace (lineAt st.buf st.pos).1) h).1 e0 s0 hd
          by_cases hs : s0.strict = true
          · rw [if_pos hs] at hh; cases hh; exact h0
          · rw [if_neg hs] at hh
            exact (ih s0 h0).1 e s2 hh
        | ok s0 =>
          rw [hd] at hh
          dsimp only at hh
          exact (ih s0 ((dispatch_inv { st with pos := (lineAt st.buf st.pos).2 }
            (trimSpace (lineAt st.buf st.pos).1) h).2 s0 hd)).1 e s2 hh
      · rw [if_neg hpos] at hh
        exact RunRes.noConfusion hh
    · intro s2 hh
      unfold runLoop at hh
      by_cases hpos : st.pos < st.buf.length
      · rw [if_pos hpos] at hh
        dsimp only at hh
        cases hd : dispatch { st with pos := (lineAt st.buf st.pos).2 }
            (trimSpace (lineAt st.buf st.pos).1) with
        | panicked => rw [hd] at hh; dsimp only at hh; exact RunRes.noConfusion hh
        | failed e0 s0 =>
          rw [hd] at hh
          dsimp only at hh
          have h0 : noEmptyIds s0.po :=
            (dispatch_inv { st with pos := (lineAt st.buf st.pos).2 }
              (trimSpace (lineAt st.buf st.pos).1) h).1 e0 s0 hd
          by_cases hs : s0.strict = true
          · rw [if_pos hs] at hh; exact RunRes.noConfusion hh
          · rw [if_neg hs] at hh
            exact (ih s0 h0).2 s2 hh
        | ok s0 =>
          rw [hd] at hh
          dsimp only at hh
          exact (ih s0 ((dispatch_inv { st with pos := (lineAt st.buf st.pos).2 }
            (trimSpace (lineAt st.buf st.pos).1) h).2 s0 hd)).2 s2 hh
      · rw [if_neg hpos] at hh
        cases hh
        exact h

theorem runF_inv (st : ParseCtx) (h : noEmptyIds st.po) (st2 : ParseCtx) (e : Option String)
    (hr : runF st = some (st2, e)) : noEmptyIds st2.po := by
  unfold runF at hr
  cases hl : runLoop (st.buf.length + 1) st with
  | panicked => rw [hl] at hr; exact Option.noConfusion hr
  | failed e0 s0 =>
    rw [hl] at hr
    dsimp only at hr
    injection hr with hr2
    have h1 : s0 = st2 := congrArg Prod.fst hr2
    subst h1
    exact (runLoop_inv _ st h).1 e0 s0 hl
  | ok s1 =>
    rw [hl] at hr
    dsimp only at hr
    cases hp : pop s1 with
    | none => rw [hp] at hr; exact Option.noConfusion hr
    | some s2x =>
      rw [hp] at hr
      dsimp only at hr
      have h2 : noEmptyIds s2x.po := pop_inv s1 s2x ((runLoop_inv _ st h).2 s1 hl) hp
      have h3 := parseHeadersF_maps s2x
      cases hph : parseHeadersF s2x with
      | mk st3 oe =>
        rw [hph] at hr
        rw [hph] at h3
        have h4 : noEmptyIds st3.po := noEmptyIds_of_maps _ _ h3.1 h3.2 h2
        cases oe with
        | none =>
          dsimp only at hr
          injection hr with hr2
          have h5 : st3 = st2 := congrArg Prod.fst hr2
          subst h5
          exact h4
        | some e0 =>
          dsimp only at hr
          injection hr with hr2
          have h5 : st3 = st2 := congrArg Prod.fst hr2
          subst h5
          exact h4

theorem noEmptyIds_lookup (po : Po) (h : noEmptyIds po) :
    poTrans po [] = none ∧ ∀ c, poCtxTrans po c [] = none := by
  obtain ⟨⟨m, hm, hm0⟩, ⟨cm, hcm, hcm0⟩⟩ := h
  constructor
  · unfold poTrans
    rw [hm]
    exact hm0
  · intro c
    unfold poCtxTrans
    rw [hcm]
    dsimp only
    rcases hcm0 c with hnone | ⟨im, him, him0⟩
    · rw [hnone]
    · rw [him]
      exact him0

/-- C9 (counterexample): a no-op commit does not clear the pending
context — pop on a state with pending context "C" and an empty pending id
leaves the context set; consequently, in a buffer where msgctxt "C" is
followed by an empty-id msgid and then a real entry, the context survives
the intervening no-op commits and the entry "x" lands under context "C"
(not in the default context, as clearing at every commit would give). -/
theorem c9_counterexample :
    (pop st9fix).map ParseCtx.curContext = some (s2l "C") ∧
    s2l "C" ≠ [] ∧ st9fix.curTranslation.id = [] ∧
    (parserParse false buf9fix).poOf.map (fun po => (poCtxTrans po (s2l "C") (s2l "x")).isSome) =
      some true ∧
    (parserParse false buf9fix).poOf.map (fun po => (poTrans po (s2l "x")).isSome) =
      some false := by
  exact ⟨rfl, by decide, rfl, rfl, rfl⟩

/-- C9 (amended): a commit that stores an entry (non-empty pending id)
does clear the pending context; a no-op commit leaves it in place.  And
no translation with an empty id is ever stored: every catalog Parse
returns has no empty-id key in its default-context map nor in any
per-context map. -/
theorem c9_amended :
    (∀ st st2 : ParseCtx, st.curTranslation.id ≠ [] → pop st = some st2 →
      st2.curContext = []) ∧
    (∀ (s : Bool) (buf : Str) (po : Po), (parserParse s buf).poOf = some po →
      poTrans po [] = none ∧ ∀ c, poCtxTrans po c [] = none) := by
  constructor
  · exact fun st st2 => pop_clears st st2
  · intro s buf po hpo
    unfold parserParse at hpo
    cases hr : runF (⟨buf, 0, NewPo, [], s, newTranslation, []⟩ : ParseCtx) with
    | none =>
      rw [hr] at hpo
      exact Option.noConfusion hpo
    | some pr =>
      obtain ⟨stx, oe⟩ := pr
      have hinv : noEmptyIds stx.po :=
        runF_inv _ noEmptyIds_NewPo stx oe hr
      rw [hr] at hpo
      cases oe with
      | none =>
        have hpo2 : some stx.po = some po := hpo
        injection hpo2 with hpo3
        rw [← hpo3]
        exact noEmptyIds_lookup _ hinv
      | some e0 =>
        cases s with
        | true => exact Option.noConfusion hpo
        | false =>
          have hpo2 : some stx.po = some po := hpo
          injection hpo2 with hpo3
          rw [← hpo3]
          exact noEmptyIds_lookup _ hinv

/-- C9 (witness): the amended theorem applied at a state committing the
pending id "x" under context "C", and at the parse of the fixture
buffer. -/
theorem c9_witness :
    ((⟨[], 0, NewPo, [], false, ⟨s2l "x", [], [s2l "y"]⟩, s2l "C"⟩ : ParseCtx).curTranslation.id ≠ [] ∧
     ∀ st2, pop (⟨[], 0, NewPo, [], false, ⟨s2l "x", [], [s2l "y"]⟩, s2l "C"⟩ : ParseCtx) = some st2 →
       st2.curContext = []) ∧
    ((parserParse false buf9fix).poOf.map (fun po => poTrans po []) = some none) := by
  refine ⟨⟨by decide, ?_⟩, rfl⟩
  intro st2 hp
  exact c9_amended.1 _ st2 (by decide) hp

/-!
Claims C8 and C10: symbolic evaluation of the parser on the two-line
entry buffer.
-/

theorem cleanStr_mem {X : Str} (h : cleanStr X = true) {c : Char} (hc : c ∈ X) :
    c ≠ '"' ∧ c ≠ '\\' ∧ c ≠ '\n' := by
  unfold cleanStr at h
  rw [List.all_eq_true] at h
  have h2 := h c hc
  simp only [Bool.and_eq_true, Bool.not_eq_true', beq_eq_false_iff_ne] at h2
  exact ⟨h2.1.1, h2.1.2, h2.2⟩

theorem cleanStr_nl {X : Str} (h : cleanStr X = true) : '\n' ∉ X := by
  intro hm
  exact (cleanStr_mem h hm).2.2 rfl

theorem nl_not_mem_poLine1 (X : Str) (h : cleanStr X = true) : '\n' ∉ poLine1 X := by
  unfold poLine1
  intro hm
  simp only [List.mem_cons, List.mem_append, List.mem_singleton] at hm
  rcases hm with h1 | h1 | h1 | h1 | h1 | h1 | h1 | h1 | h1
  all_goals first
    | exact cleanStr_nl h h1
    | exact absurd h1 (by decide)

theorem nl_not_mem_poLine2 (Y : Str) (h : cleanStr Y = true) : '\n' ∉ poLine2 Y := by
  unfold poLine2
  intro hm
  simp only [List.mem_cons, List.mem_append, List.mem_singleton] at hm
  rcases hm with h1 | h1 | h1 | h1 | h1 | h1 | h1 | h1 | h1 | h1
  all_goals first
    | exact cleanStr_nl h h1
    | exact absurd h1 (by decide)

theorem firstIdx_not_mem (l : Str) (c : Char) (h : c ∉ l) : firstIdx l c = none := by
  induction l with
  | nil => rfl
  | cons d rest ih =>
    have hd : (d == c) = false := by
      simp only [beq_eq_false_iff_ne]
      intro he
      exact h (he ▸ List.mem_cons_self d rest)
    unfold firstIdx
    rw [hd]
    simp only [Bool.false_eq_true, if_false]
    rw [ih (fun hm => h (List.mem_cons_of_mem d hm))]
    rfl

theorem firstIdx_append_cons (l1 l2 : Str) (c : Char) (h : c ∉ l1) :
    firstIdx (l1 ++ c :: l2) c = some l1.length := by
  induction l1 with
  | nil => unfold firstIdx; rw [List.nil_append]; simp
  | cons d rest ih =>
    have hd : (d == c) = false := by
      simp only [beq_eq_false_iff_ne]
      intro he
      exact h (he ▸ List.mem_cons_self d rest)
    rw [List.cons_append]
    unfold firstIdx
    rw [hd]
    simp only [Bool.false_eq_true, if_false]
    rw [ih (fun hm => h (List.mem_cons_of_mem d hm))]
    rfl

theorem trimLeftSp_cons (c : Char) (l : Str) (h : goIsSpace c = false) :
    trimLeftSp (c :: l) = c :: l := by
  unfold trimLeftSp
  rw [List.dropWhile_cons, h]
  rfl

theorem trimRightSp_concat (l : Str) (c : Char) (h : goIsSpace c = false) :
    trimRightSp (l ++ [c]) = l ++ [c] := by
  unfold trimRightSp
  rw [List.reverse_append]
  simp only [List.reverse_cons, List.reverse_nil, List.nil_append, List.singleton_append]
  rw [List.dropWhile_cons, h]
  simp only [Bool.false_eq_true, if_false]
  rw [List.reverse_cons, List.reverse_reverse]

theorem trimSpace_quoted (X : Str) :
    trimSpace (' ' :: '"' :: (X ++ ['"'])) = '"' :: (X ++ ['"']) := by
  unfold trimSpace
  rw [show trimLeftSp (' ' :: '"' :: (X ++ ['"'])) = trimLeftSp ('"' :: (X ++ ['"'])) by
    unfold trimLeftSp; rw [List.dropWhile_cons]; rfl]
  rw [trimLeftSp_cons '"' (X ++ ['"']) (by decide)]
  rw [show ('"' :: (X ++ ['"'])) = (('"' :: X) ++ ['"']) by simp]
  exact trimRightSp_concat _ _ (by decide)

theorem trim_poLine1 (X : Str) : trimSpace (poLine1 X) = poLine1 X := by
  unfold trimSpace poLine1
  rw [trimLeftSp_cons 'm' _ (by decide)]
  rw [show ('m' :: 's' :: 'g' :: 'i' :: 'd' :: ' ' :: '"' :: (X ++ ['"'])) =
    (('m' :: 's' :: 'g' :: 'i' :: 'd' :: ' ' :: '"' :: X) ++ ['"']) by simp]
  exact trimRightSp_concat _ _ (by decide)

theorem trim_poLine2 (Y : Str) : trimSpace (poLine2 Y) = poLine2 Y := by
  unfold trimSpace poLine2
  rw [trimLeftSp_cons 'm' _ (by decide)]
  rw [show ('m' :: 's' :: 'g' :: 's' :: 't' :: 'r' :: ' ' :: '"' :: (Y ++ ['"'])) =
    (('m' :: 's' :: 'g' :: 's' :: 't' :: 'r' :: ' ' :: '"' :: Y) ++ ['"']) by simp]
  exact trimRightSp_concat _ _ (by decide)

theorem unqLoop_clean (fuel : Nat) : ∀ X : Str, cleanStr X = true → X.length ≤ fuel →
    unqLoop '"' fuel X = some X := by
  induction fuel with
  | zero =>
    intro X h hf
    cases X with
    | nil => rfl
    | cons c rest => simp at hf
  | succ f ih =>
    intro X h hf
    cases X with
    | nil => rfl
    | cons c rest =>
      obtain ⟨hq, hb, _⟩ := cleanStr_mem h (List.mem_cons_self c rest)
      have hrest : cleanStr rest = true := by
        unfold cleanStr at h ⊢
        rw [List.all_eq_true] at h ⊢
        exact fun x hx => h x (List.mem_cons_of_mem c hx)
      unfold unqLoop
      rw [show (c == '"') = false by simpa using hq]
      simp only [Bool.false_eq_true, if_false]
      rw [show (c == '\\') = false by simpa using hb]
      simp only [Bool.false_eq_true, if_false]
      rw [ih rest hrest (by simpa using Nat.le_of_succ_le_succ hf)]
      rfl

theorem unquote_clean (X : Str) (h : cleanStr X = true) :
    unquote ('"' :: (X ++ ['"'])) = some X := by
  unfold unquote
  dsimp only
  rw [if_neg (by simp : ¬(X ++ ['"'] = []))]
  rw [show (X ++ ['"']).getLastD ' ' = '"' by simp]
  rw [show (X ++ ['"']).dropLast = X from List.dropLast_concat]
  simp only [beq_self_eq_true, if_true, show (('"' : Char) == '`') = false by decide,
    Bool.false_eq_true, if_false]
  rw [show elemCh X '\n' = false by
    unfold elemCh
    rw [List.any_eq_false]
    intro x hx
    simpa using (cleanStr_mem h hx).2.2]
  simp only [Bool.false_eq_true, if_false]
  exact unqLoop_clean X.length X h (Nat.le_refl _)

theorem poLine1_len (X : Str) : (poLine1 X).length = X.length + 8 := by
  simp only [poLine1, List.length_cons, List.length_append, List.length_singleton,
    List.length_nil]

theorem poLine2_len (Y : Str) : (poLine2 Y).length = Y.length + 9 := by
  simp only [poLine2, List.length_cons, List.length_append, List.length_singleton,
    List.length_nil]

theorem mkEntryBuf_len (X Y : Str) : (mkEntryBuf X Y).length = X.length + Y.length + 18 := by
  simp only [mkEntryBuf, List.length_append, List.length_cons, poLine1_len, poLine2_len]
  omega

theorem lineAt_first (l1 l2 : Str) (h : '\n' ∉ l1) (hne : l1 ≠ []) :
    lineAt (l1 ++ '\n' :: l2) 0 = (l1, l1.length + 1) := by
  unfold lineAt
  dsimp only
  rw [List.drop_zero]
  have hidx : indexByte (l1 ++ '\n' :: l2) '\n' = (l1.length : Int) := by
    unfold indexByte
    rw [firstIdx_append_cons l1 l2 '\n' h]
  rw [hidx]
  rw [if_neg (by
    intro hc
    exact hne (List.length_eq_zero.mp (by exact_mod_cast hc)))]
  rw [if_neg (by omega)]
  rw [Int.toNat_natCast, List.take_left]
  simp

theorem lineAt_rest (buf : Str) (pos : Nat) (h : '\n' ∉ buf.drop pos) :
    lineAt buf pos = (buf.drop pos, buf.length) := by
  unfold lineAt
  dsimp only
  have hidx : indexByte (buf.drop pos) '\n' = -1 := by
    unfold indexByte
    rw [firstIdx_not_mem _ _ h]
  rw [hidx]
  rw [if_neg (by omega)]
  rw [if_pos rfl]

theorem runLoop_step (fuel : Nat) (st : ParseCtx) (h : st.pos < st.buf.length) :
    runLoop (fuel + 1) st =
      (match dispatch { st with pos := (lineAt st.buf st.pos).2 }
          (trimSpace (lineAt st.buf st.pos).1) with
       | .panicked => .panicked
       | .failed e st2 => if st2.strict then .failed e st2 else runLoop fuel st2
       | .ok st2 => runLoop fuel st2) := by
  conv_lhs => unfold runLoop
  rw [if_pos h]

theorem runLoop_step_ok (fuel : Nat) (st st2 : ParseCtx) (h : st.pos < st.buf.length)
    (hd : dispatch { st with pos := (lineAt st.buf st.pos).2 }
      (trimSpace (lineAt st.buf st.pos).1) = .ok st2) :
    runLoop (fuel + 1) st = runLoop fuel st2 := by
  rw [runLoop_step fuel st h, hd]

theorem runLoop_exit (fuel : Nat) (st : ParseCtx) (h : ¬st.pos < st.buf.length) :
    runLoop fuel st = .ok st := by
  cases fuel with
  | zero => rfl
  | succ f => unfold runLoop; rw [if_neg h]

theorem dispatch_line1 (st : ParseCtx) (X : Str) (hcX : cleanStr X = true)
    (hid : st.curTranslation.id = []) :
    dispatch st (poLine1 X) = .ok { st with curTranslation := ⟨X, [], []⟩ } := by
  have h0 : dispatch st (poLine1 X) =
      wrapFail "po: failed to parse msgid" (parseIDF st (' ' :: '"' :: (X ++ ['"']))) := rfl
  rw [h0]
  unfold parseIDF
  have hpop : pop st = some { st with curTranslation := newTranslation } := by
    unfold pop
    rw [if_pos hid]
  rw [hpop]
  dsimp only
  rw [trimSpace_quoted X, unquote_clean X hcX]
  rfl

theorem dispatch_line2 (st : ParseCtx) (Y : Str) (hcY : cleanStr Y = true)
    (htrs : st.curTranslation.Trs = []) :
    dispatch st (poLine2 Y) =
      .ok { st with curTranslation := { st.curTranslation with Trs := [Y] } } := by
  have h0 : dispatch st (poLine2 Y) =
      wrapFail "po: failed to parse msgstr" (parseMessageF st (' ' :: '"' :: (Y ++ ['"']))) := rfl
  rw [h0]
  unfold parseMessageF
  rw [trimSpace_quoted Y]
  dsimp only
  have hpfx : goHasPfx ('"' :: (Y ++ ['"'])) (s2l "[") = false := rfl
  rw [hpfx]
  rw [if_pos (show (!false) = true by decide)]
  rw [unquote_clean Y hcY]
  dsimp only
  rw [htrs]
  rfl

set_option maxHeartbeats 1000000 in
/-- Parsing the two-line buffer msgid "X" / msgstr "Y" (clean X and Y,
X non-empty) yields, in either mode, exactly the catalog holding the one
translation X with singular form Y, and no error. -/
theorem parse_pair (X Y : Str) (s : Bool) (hX : X ≠ []) (hcX : cleanStr X = true)
    (hcY : cleanStr Y = true) :
    parserParse s (mkEntryBuf X Y) = .ret (some (entryPo X Y)) none := by
  have hline1 : lineAt (mkEntryBuf X Y) 0 = (poLine1 X, (poLine1 X).length + 1) :=
    lineAt_first (poLine1 X) (poLine2 Y) (nl_not_mem_poLine1 X hcX) (by unfold poLine1; simp)
  have hdrop2 : (mkEntryBuf X Y).drop ((poLine1 X).length + 1) = poLine2 Y := by
    unfold mkEntryBuf
    rw [show poLine1 X ++ '\n' :: poLine2 Y = (poLine1 X ++ ['\n']) ++ poLine2 Y by simp]
    rw [show (poLine1 X).length + 1 = (poLine1 X ++ ['\n']).length by simp]
    exact List.drop_left _ _
  have hline2 : lineAt (mkEntryBuf X Y) ((poLine1 X).length + 1) =
      (poLine2 Y, (mkEntryBuf X Y).length) := by
    rw [lineAt_rest _ _ (by rw [hdrop2]; exact nl_not_mem_poLine2 Y hcY), hdrop2]
  have hd1 : dispatch { (⟨mkEntryBuf X Y, 0, NewPo, [], s, newTranslation, []⟩ : ParseCtx) with
        pos := (lineAt (mkEntryBuf X Y) 0).2 }
      (trimSpace (lineAt (mkEntryBuf X Y) 0).1) =
      .ok (⟨mkEntryBuf X Y, (poLine1 X).length + 1, NewPo, [], s, ⟨X, [], []⟩, []⟩ : ParseCtx) := by
    rw [hline1]
    dsimp only
    rw [trim_poLine1 X]
    exact dispatch_line1 _ X hcX rfl
  have hd2 : dispatch
      { (⟨mkEntryBuf X Y, (poLine1 X).length + 1, NewPo, [], s, ⟨X, [], []⟩, []⟩ : ParseCtx) with
        pos := (lineAt (mkEntryBuf X Y) ((poLine1 X).length + 1)).2 }
      (trimSpace (lineAt (mkEntryBuf X Y) ((poLine1 X).length + 1)).1) =
      .ok (⟨mkEntryBuf X Y, (mkEntryBuf X Y).length, NewPo, [], s, ⟨X, [], [Y]⟩, []⟩ : ParseCtx) := by
    rw [hline2]
    dsimp only
    rw [trim_poLine2 Y]
    exact dispatch_line2 _ Y hcY rfl
  have hpos0 : (0 : Nat) < (mkEntryBuf X Y).length := by rw [mkEntryBuf_len]; omega
  have hposA : (poLine1 X).length + 1 < (mkEntryBuf X Y).length := by
    rw [mkEntryBuf_len, poLine1_len]; omega
  have hrun : runLoop ((mkEntryBuf X Y).length + 1)
      (⟨mkEntryBuf X Y, 0, NewPo, [], s, newTranslation, []⟩ : ParseCtx) =
      .ok (⟨mkEntryBuf X Y, (mkEntryBuf X Y).length, NewPo, [], s, ⟨X, [], [Y]⟩, []⟩ : ParseCtx) := by
    have hexp : (mkEntryBuf X Y).length + 1 = ((X.length + Y.length + 17) + 1) + 1 := by
      rw [mkEntryBuf_len]
    rw [hexp]
    rw [runLoop_step_ok _ _ _ hpos0 hd1]
    rw [runLoop_step_ok _ _ _ hposA hd2]
    exact runLoop_exit _ _ (Nat.lt_irrefl _)
  have hpop : pop (⟨mkEntryBuf X Y, (mkEntryBuf X Y).length, NewPo, [], s,
        ⟨X, [], [Y]⟩, []⟩ : ParseCtx) =
      some (⟨mkEntryBuf X Y, (mkEntryBuf X Y).length, entryPo X Y, [], s,
        newTranslation, []⟩ : ParseCtx) := by
    unfold pop NewPo
    dsimp only
    rw [if_neg hX]
    rfl
  have hhdr : parseHeadersF (⟨mkEntryBuf X Y, (mkEntryBuf X Y).length, entryPo X Y, [], s,
        newTranslation, []⟩ : ParseCtx) =
      ((⟨mkEntryBuf X Y, (mkEntryBuf X Y).length, entryPo X Y, s2l "\n\n", s,
        newTranslation, []⟩ : ParseCtx), none) := rfl
  show parseFinish s (runF (⟨mkEntryBuf X Y, 0, NewPo, [], s, newTranslation, []⟩ : ParseCtx)) =
    POut.ret (some (entryPo X Y)) none
  unfold runF
  dsimp only
  rw [hrun]
  dsimp only
  rw [hpop]
  dsimp only
  rw [hhdr]
  rfl

/-- C8: parsing a buffer holding the well-formed entry msgid "X" /
msgstr "Y" (X non-empty, X and Y free of characters needing escapes)
succeeds in both modes and Get X returns Y passed through the formatter;
and for any id absent from a catalog, Get returns the id itself passed
through the formatter. -/
theorem c8_roundtrip (X Y : Str) (s : Bool) (vars : List GoVal)
    (hX : X ≠ []) (hcX : cleanStr X = true) (hcY : cleanStr Y = true) :
    ((parserParse s (mkEntryBuf X Y)).errOf = none ∧
     (parserParse s (mkEntryBuf X Y)).poOf.map (fun po => po.Get X vars) =
       some (format Y vars)) ∧
    (∀ (po : Po) (str : Str), poTrans po str = none → po.Get str vars = format str vars) := by
  constructor
  · rw [parse_pair X Y s hX hcX hcY]
    refine ⟨rfl, ?_⟩
    dsimp only [POut.poOf, Option.map]
    unfold Po.Get entryPo
    dsimp only
    rw [show mupd (fun _ => none) X ⟨X, [], [Y]⟩ X = some ⟨X, [], [Y]⟩ by
      unfold mupd; rw [if_pos rfl]]
    exact rfl
  · intro po str hnone
    unfold poTrans at hnone
    unfold Po.Get
    cases hm : po.Translations with
    | none => rfl
    | some m =>
      rw [hm] at hnone
      have hns : m str = none := hnone
      show (match m str with
            | some t => format t.get vars
            | none => format str vars) = format str vars
      rw [hns]

/-- C8 (witness): the theorem applied at the concrete entry
msgid "One" / msgstr "Uno" in lenient mode with no formatting
arguments. -/
theorem c8_witness :
    (s2l "One" ≠ [] ∧ cleanStr (s2l "One") = true ∧ cleanStr (s2l "Uno") = true) ∧
    ((parserParse false (mkEntryBuf (s2l "One") (s2l "Uno"))).errOf = none ∧
     (parserParse false (mkEntryBuf (s2l "One") (s2l "Uno"))).poOf.map
       (fun po => po.Get (s2l "One") []) = some (format (s2l "Uno") [])) :=
  ⟨⟨by decide, by decide, by decide⟩,
   (c8_roundtrip (s2l "One") (s2l "Uno") false [] (by decide) (by decide) (by decide)).1⟩

/-- C10: an entry parsed from msgid "X" / msgstr "" stores the empty
string as form 0, and Get X returns the formatted empty string — not the
id; the untranslated-id fallback of translation.get fires exactly when
the form list is empty, never when index 0 holds the empty string. -/
theorem c10_empty_form_not_fallback (X : Str) (s : Bool) (vars : List GoVal)
    (hX : X ≠ []) (hcX : cleanStr X = true) :
    ((parserParse s (mkEntryBuf X [])).poOf.map (fun po => po.Get X vars) =
      some (format [] vars)) ∧
    (∀ (tr : translation) (v : Str) (rest : List Str), tr.Trs = v :: rest →
      translation.get tr = v) ∧
    (∀ tr : translation, tr.Trs = [] → translation.get tr = tr.id) := by
  refine ⟨?_, ?_, ?_⟩
  · rw [parse_pair X [] s hX hcX (by decide)]
    dsimp only [POut.poOf, Option.map]
    unfold Po.Get entryPo
    dsimp only
    rw [show mupd (fun _ => none) X ⟨X, [], [[]]⟩ X = some ⟨X, [], [[]]⟩ by
      unfold mupd; rw [if_pos rfl]]
    exact rfl
  · intro tr v rest htrs
    unfold translation.get
    rw [htrs]
    unfold Textlist.Get Textlist.Len
    rw [if_neg (by
      show ¬(((v :: rest).length : Int) ≤ 0)
      simp only [List.length_cons]
      push_cast
      omega)]
    rw [if_neg (by omega)]
    exact rfl
  · intro tr htrs
    unfold translation.get
    rw [htrs]
    exact rfl

/-- C10 (witness): the theorem applied at the concrete entry
msgid "a" / msgstr "". -/
theorem c10_witness :
    (s2l "a" ≠ [] ∧ cleanStr (s2l "a") = true) ∧
    ((parserParse false (mkEntryBuf (s2l "a") [])).poOf.map
      (fun po => po.Get (s2l "a") []) = some (format [] [])) :=
  ⟨⟨by decide, by decide⟩,
   (c10_empty_form_not_fallback (s2l "a") false [] (by decide) (by decide)).1⟩

/-!
Sanity checks of the embedding on concrete inputs, including the
end-to-end example of the spec (section 8).
-/

example : format (s2l "%d items") [.i 5] = s2l "5 items" := by decide
example : format (s2l "abc") [] = s2l "abc" := by decide
example : unquote (s2l "\"a\\nb\"") = some ('a' :: '\n' :: ['b']) := by decide
example : unquote (s2l "\"ab") = none := by decide
example : unquote (s2l "\"a\"b\"") = none := by decide
example : goAtoi (s2l "-1") = .ok (-1) := by decide
example : goAtoi (s2l "12x") = .synErr := by decide
example : trimSpace (s2l "  ab c  ") = s2l "ab c" := by decide
example : splitOnCh (s2l "a;b;") ';' = [s2l "a", s2l "b", []] := by decide
example : splitN2 (s2l "a=b=c") '=' = [s2l "a", s2l "b=c"] := by decide
example : pluralEval (s2l "(n != 1)") 1 = some (.b false) := by decide
example : pluralEval (s2l "(n != 1)") 5 = some (.b true) := by decide
example : pluralEval (s2l "n == 1 ? 0 : n % 10 == 0 ? 1 : 2") 20 = some (.i 1) := by decide
example : pluralEval (s2l "1 / 0") 3 = none := by decide

example :
    (parserParse false specExampleBuf).poOf.map
      (fun po => po.GetN (s2l "One item") (s2l "%d items") 1 []) =
      some (some (s2l "One item")) := by decide

example :
    (parserParse false specExampleBuf).poOf.map
      (fun po => po.GetN (s2l "One item") (s2l "%d items") 5 [.i 5]) =
      some (some (s2l "5 items")) := by decide
